import Mathlib

set_option maxRecDepth 100000

/-!
# Verification of the improv userscript-orchestration extension

Shallow embedding of the orchestration core of the `improv` browser
extension (sidepanel `App.tsx`, `utils.ts`, `contentScript.ts`, and the
background service worker), together with proofs of the spec's testable
properties.

Conventions of the embedding:
* Pure TypeScript functions become Lean functions over `String` / `List`.
* JavaScript array mutation on objects obtained through `Array.find`
  becomes an explicit `updateFirst` on the list.
* Non-deterministic environment inputs (fresh UUIDs, `Date.now()`, page
  captures, the model-provider response, regex evaluation by the JS
  engine) are passed as explicit parameters.
* Machine integers do not occur; all counters are `Nat`.
-/

namespace Improv

/-! ## Data model (`src/types.ts`) -/

inductive Role where
  | user
  | assistant
  | system
deriving DecidableEq, Repr

/-- Snapshot of userscript state at a point in time (`UserscriptSnapshot`). -/
structure UserscriptSnapshot where
  name : String
  matchUrls : String
  jsScript : String
  enabled : Bool
deriving DecidableEq, Repr

structure ToolCallFunction where
  name : String
  arguments : String
deriving DecidableEq, Repr

structure ToolCall where
  id : String
  type : String
  function : ToolCallFunction
deriving DecidableEq, Repr

structure ToolResult where
  toolCallId : String
  output : String
deriving DecidableEq, Repr

/-- One chat turn (`ChatMessage`).  Optional fields that are absent in a
JS object are modelled with `Option` / empty-list defaults. -/
structure ChatMessage where
  id : String
  role : Role
  content : String
  timestamp : Nat
  toolCalls : List ToolCall := []
  toolResults : List ToolResult := []
  scriptSnapshot : Option UserscriptSnapshot := none
deriving DecidableEq, Repr

/-- The per-chat pending-approval marker kept on a chat by the sidepanel
(`setPendingApproval` value type in `App.tsx`). -/
structure PendingApproval where
  jsScript : String
  output : String
deriving DecidableEq, Repr

/-- A conversation record (`ChatHistory`), including the persisted
`pendingApproval` field used by the sidepanel. -/
structure ChatHistory where
  id : String
  domain : String
  messages : List ChatMessage
  initialPrompt : String
  initialUrl : String
  initialScreenshot : String
  initialHtml : String
  initialConsoleLog : String
  pendingApproval : Option PendingApproval := none
  createdAt : Nat
  updatedAt : Nat
deriving DecidableEq, Repr

/-- A Task (`Userscript`). -/
structure Userscript where
  id : String
  name : String
  matchUrls : String
  jsScript : String
  chatHistoryId : String
  createdAt : Nat
  updatedAt : Nat
  enabled : Bool
deriving DecidableEq, Repr

def toSnapshot (s : Userscript) : UserscriptSnapshot :=
  { name := s.name, matchUrls := s.matchUrls, jsScript := s.jsScript
    enabled := s.enabled }

/-! ## Console-log capture buffer (`src/contentScript.ts`) -/

def MAX_CONSOLE_LOGS : Nat := 100

/-- `addLog` from `contentScript.ts`: push the entry, then drop the oldest
entry (`Array.shift`) when the buffer exceeds `MAX_CONSOLE_LOGS`. -/
def addLog (consoleLogs : List String) (entry : String) : List String :=
  let l := consoleLogs ++ [entry]
  if MAX_CONSOLE_LOGS < l.length then l.tail else l

/-- The buffer contents after capturing a whole sequence of console
events, starting from the initially empty buffer. -/
def captureAll (events : List String) : List String :=
  events.foldl addLog []

/-! ## Character-list models of the JS string primitives

`String.splitOn`, `String.trim` etc. are not used because the embedding
must evaluate inside the kernel; instead the JS primitives are modelled
directly on `List Char` (for the ASCII payloads this program handles,
JS UTF-16 semantics and codepoint-list semantics agree). -/

/-- JS `s.split("\n")`: the separator-delimited fields, empty fields
included (`"".split("\n") = [""]`). -/
def splitLines : List Char → List (List Char)
  | [] => [[]]
  | c :: cs =>
    if c = '\n' then [] :: splitLines cs
    else
      match splitLines cs with
      | [] => [[c]]
      | f :: rest => (c :: f) :: rest

/-- JS `s.trim()` (restricted to the usual ASCII whitespace). -/
def trimChars (l : List Char) : List Char :=
  ((l.dropWhile Char.isWhitespace).reverse.dropWhile Char.isWhitespace).reverse

/-! ## Line-set diffing (`sendMessageToLLM`, `App.tsx`) -/

/-- `script.split("\n").map((l) => l.trim()).filter(Boolean)`. -/
def diffLines (s : String) : List (List Char) :=
  ((splitLines s.toList).map trimChars).filter (fun l => l ≠ [])

/-- One insertion step of a JS `Set` built from an array: keep insertion
order, skip elements already present. -/
def setAdd {α : Type} [DecidableEq α] (acc : List α) (x : α) : List α :=
  if x ∈ acc then acc else acc ++ [x]

/-- The element list of `new Set(l)` in insertion order (`[...set]`). -/
def toSetList {α : Type} [DecidableEq α] (l : List α) : List α :=
  l.foldl setAdd []

/-- `[...oldSet].filter((l) => !newSet.has(l)).length` — the count of
distinct trimmed non-empty lines of the old script absent from the new
script. -/
def diffRemoved (oldScript newScript : String) : Nat :=
  ((toSetList (diffLines oldScript)).filter
    (fun l => l ∉ toSetList (diffLines newScript))).length

/-- `[...newSet].filter((l) => !oldSet.has(l)).length`. -/
def diffAdded (oldScript newScript : String) : Nat :=
  ((toSetList (diffLines newScript)).filter
    (fun l => l ∉ toSetList (diffLines oldScript))).length

/-! ### Basic lemmas about the JS-`Set` model -/

variable {α : Type} [DecidableEq α]

theorem mem_setAdd {acc : List α} {x y : α} :
    y ∈ setAdd acc x ↔ y ∈ acc ∨ y = x := by
  unfold setAdd
  by_cases h : x ∈ acc
  · simp only [if_pos h]
    constructor
    · exact Or.inl
    · rintro (hy | rfl)
      · exact hy
      · exact h
  · simp [if_neg h]

theorem nodup_setAdd {acc : List α} (h : acc.Nodup) (x : α) :
    (setAdd acc x).Nodup := by
  unfold setAdd
  by_cases hx : x ∈ acc
  · simpa [if_pos hx]
  · rw [if_neg hx]
    refine List.nodup_append.mpr ⟨h, List.nodup_singleton x, ?_⟩
    intro a ha hax
    rw [List.mem_singleton] at hax
    exact hx (hax ▸ ha)

theorem mem_foldl_setAdd (l : List α) :
    ∀ acc y, y ∈ l.foldl setAdd acc ↔ y ∈ acc ∨ y ∈ l := by
  induction l with
  | nil => simp
  | cons x xs ih =>
      intro acc y
      simp only [List.foldl_cons, ih, mem_setAdd, List.mem_cons]
      tauto

theorem nodup_foldl_setAdd (l : List α) :
    ∀ acc, acc.Nodup → (l.foldl setAdd acc).Nodup := by
  induction l with
  | nil => intro acc h; simpa
  | cons x xs ih => intro acc h; exact ih _ (nodup_setAdd h x)

theorem mem_toSetList {l : List α} {y : α} :
    y ∈ toSetList l ↔ y ∈ l := by
  unfold toSetList
  rw [mem_foldl_setAdd]
  simp

theorem nodup_toSetList (l : List α) : (toSetList l).Nodup :=
  nodup_foldl_setAdd l [] List.nodup_nil

/-- The filtered set-difference list is exactly the `Finset` difference of
the two line sets. -/
theorem diffRemoved_eq_card (oldScript newScript : String) :
    diffRemoved oldScript newScript =
      ((diffLines oldScript).toFinset \ (diffLines newScript).toFinset).card := by
  unfold diffRemoved
  have hnd : ((toSetList (diffLines oldScript)).filter
      (fun l => l ∉ toSetList (diffLines newScript))).Nodup :=
    (nodup_toSetList _).filter _
  rw [← List.toFinset_card_of_nodup hnd]
  congr 1
  ext a
  simp only [List.mem_toFinset, List.mem_filter, Finset.mem_sdiff,
    mem_toSetList, decide_eq_true_eq]

theorem diffAdded_eq_card (oldScript newScript : String) :
    diffAdded oldScript newScript =
      ((diffLines newScript).toFinset \ (diffLines oldScript).toFinset).card := by
  unfold diffAdded
  have hnd : ((toSetList (diffLines newScript)).filter
      (fun l => l ∉ toSetList (diffLines oldScript))).Nodup :=
    (nodup_toSetList _).filter _
  rw [← List.toFinset_card_of_nodup hnd]
  congr 1
  ext a
  simp only [List.mem_toFinset, List.mem_filter, Finset.mem_sdiff,
    mem_toSetList, decide_eq_true_eq]

/-! ## Sidepanel application state and operations (`App.tsx`)

The React component state relevant to the orchestration loop: the
in-memory mirrors of the two persisted collections plus the status
indicator.  Fresh UUIDs and `Date.now()` timestamps are parameters; the
model-provider response, page captures and the JS regex engine are
environment inputs, also parameters. -/

inductive StatusState where
  | IDLE
  | SENDING_TO_LLM
  | WAITING_FOR_LLM_RESPONSE
  | RUNNING_JS_ON_PAGE
deriving DecidableEq, Repr

structure AppState where
  chatHistories : List ChatHistory
  userscripts : List Userscript
  status : StatusState
  scriptExecutionResults : List (String × Bool)
deriving DecidableEq, Repr

/-- JS `Array.find`: first element satisfying the predicate. -/
def jsFind {β : Type} (p : β → Bool) : List β → Option β
  | [] => none
  | x :: xs => if p x then some x else jsFind p xs

/-- JS `Array.findIndex` (with the not-found `-1` modelled as `none`). -/
def findIndex {β : Type} (p : β → Bool) : List β → Option Nat
  | [] => none
  | x :: xs => if p x then some 0 else (findIndex p xs).map (· + 1)

/-- In-place mutation of the object returned by `Array.find`: replace the
first element satisfying `p` by its image under `f`. -/
def updateFirst {β : Type} (p : β → Bool) (f : β → β) : List β → List β
  | [] => []
  | x :: xs => if p x then f x :: xs else x :: updateFirst p f xs

def findChat (st : AppState) (chatId : String) : Option ChatHistory :=
  jsFind (fun c => c.id == chatId) st.chatHistories

/-- `userscripts.find((s) => s.chatHistoryId === chatId)`. -/
def findScript (st : AppState) (chatId : String) : Option Userscript :=
  jsFind (fun s => s.chatHistoryId == chatId) st.userscripts

def updateChat (st : AppState) (chatId : String) (chat : ChatHistory) : AppState :=
  { st with chatHistories :=
      updateFirst (fun c => c.id == chatId) (fun _ => chat) st.chatHistories }

def updateScriptForChat (st : AppState) (chatId : String)
    (f : Userscript → Userscript) : AppState :=
  { st with userscripts :=
      updateFirst (fun s => s.chatHistoryId == chatId) f st.userscripts }

/-- `clearExecutionResult`: invalidate the cached success/failure
indicator for a script. -/
def clearExecutionResult (st : AppState) (scriptId : String) : AppState :=
  { st with scriptExecutionResults :=
      st.scriptExecutionResults.filter (fun r => r.1 ≠ scriptId) }

/-- A captured page observation (the resolved result of
`capturePageData`). -/
structure PageData where
  screenshot : String
  html : String
  consoleLog : String
  url : String
deriving DecidableEq, Repr

/-- `setPendingApproval` (`App.tsx`): set the persisted per-chat
pending-approval marker. -/
def setPendingApprovalOp (st : AppState) (chatId : String)
    (value : Option PendingApproval) (now : Nat) : AppState :=
  match findChat st chatId with
  | none => st
  | some chat => updateChat st chatId
      { chat with pendingApproval := value, updatedAt := now }

/-- `domain.replace(/\./g, "\\.")`. -/
def escapeDots : List Char → List Char
  | [] => []
  | c :: cs => (if c = '.' then ['\\', '.'] else [c]) ++ escapeDots cs

/-- The default regex for a domain created by `handleNewChat`:
`https?://${domain.replace(/\./g, "\\.")}.*`. -/
def defaultMatchPattern (domain : String) : String :=
  "https?://" ++ (escapeDots domain.toList).asString ++ ".*"

/-- `handleNewChat` (`App.tsx`): create the empty conversation and its
Task.  `domainOf` models the browser `URL.hostname` extraction;
`chatId`/`scriptId` are the freshly generated UUIDs.  The Task starts
with an empty script and `enabled: true` ("Enabled by default"). -/
def handleNewChat (st : AppState) (pageData : PageData)
    (domainOf : String → String) (chatId scriptId : String) (now : Nat) :
    AppState :=
  let domain := domainOf pageData.url
  let truncatedHtml :=
    if 150000 < pageData.html.length then
      (pageData.html.toList.take 150000).asString ++ "\n<!-- truncated -->"
    else pageData.html
  let newChat : ChatHistory :=
    { id := chatId, domain := domain, messages := [], initialPrompt := ""
      initialUrl := pageData.url, initialScreenshot := pageData.screenshot
      initialHtml := truncatedHtml
      initialConsoleLog := (pageData.consoleLog.toList.take 10000).asString
      pendingApproval := none, createdAt := now, updatedAt := now }
  let newScript : Userscript :=
    { id := scriptId, name := "New Script for " ++ domain
      matchUrls := defaultMatchPattern domain, jsScript := ""
      chatHistoryId := chatId, createdAt := now, updatedAt := now
      enabled := true }
  { st with chatHistories := st.chatHistories ++ [newChat]
            userscripts := st.userscripts ++ [newScript] }

/-- The user-message phase of `sendMessageToLLM` (lines up to the model
call): set `initialPrompt` on a first message, refresh the chat's page
context from the fresh capture, snapshot the Task onto the outgoing user
message, append it and persist. -/
def sendUserPhase (st : AppState) (chatId userMessage : String)
    (pageData : PageData) (userMsgId : String) (now : Nat) : AppState :=
  match findChat st chatId with
  | none => st
  | some chat =>
    let chat1 :=
      if chat.initialPrompt = "" ∧ chat.messages = [] then
        { chat with initialPrompt := userMessage }
      else chat
    let chat2 :=
      if pageData.url ≠ "" ∧ pageData.html ≠ "" then
        { chat1 with initialUrl := pageData.url
                     initialScreenshot := pageData.screenshot
                     initialHtml := pageData.html
                     initialConsoleLog := pageData.consoleLog }
      else chat1
    let userMsg : ChatMessage :=
      { id := userMsgId, role := .user, content := userMessage
        timestamp := now
        scriptSnapshot := (findScript st chatId).map toSnapshot }
    let chat3 :=
      { chat2 with messages := chat2.messages ++ [userMsg], updatedAt := now }
    { updateChat st chatId chat3 with status := .SENDING_TO_LLM }

/-- The script recorded by the most recent user message carrying a
snapshot (`lastUserMsg?.scriptSnapshot?.jsScript || ""`). -/
def lastSnapshotScript (chat : ChatHistory) : String :=
  match jsFind (fun m => m.role == Role.user && m.scriptSnapshot.isSome)
      chat.messages.reverse with
  | some m => match m.scriptSnapshot with
    | some snap => snap.jsScript
    | none => ""
  | none => ""

/-- The tool-result diff summary built in the `execute_js` branch. -/
def diffSummaryFor (oldScript newScript : String) : String :=
  if oldScript ≠ "" then
    let removed := diffRemoved oldScript newScript
    let added := diffAdded oldScript newScript
    s!"-{removed} lines removed\n+{added} lines added\n(page refreshed)"
  else
    let newLines :=
      if newScript ≠ "" then (splitLines newScript.toList).length else 0
    s!"+{newLines} lines added\n(page refreshed)"

/-- The resolved model-provider response, as consumed by
`sendMessageToLLM`'s response handling.  `toolCallExecJs` carries the
call id, the raw `function.arguments` JSON string and the parsed
`jsScript` argument; `plain` carries the extraction result of
`extractAndSaveCodeFromMessage`'s code-fence scan (`none` when no code
block of length ≥ 20 was found); `abort` is an `AbortError` from the
user's cancellation; `failure` is any other provider/network error.
The `submit_final_userscript` branch is not needed by any claim and is
not modelled. -/
inductive LLMOutcome where
  | toolCallExecJs (callId argsRaw jsScript content : String)
  | plain (content : String) (extracted : Option String)
  | abort
  | failure (errMsg : String)

/-- The response-handling phase of `sendMessageToLLM` (`App.tsx`,
tool-call handling, plain replies, the `AbortError` catch and the error
catch).  The `@match`-metadata update of `extractAndSaveCodeFromMessage`
is orthogonal to every claim and is elided from the `plain` branch. -/
def handleLLMResponse (st : AppState) (chatId : String) (outcome : LLMOutcome)
    (newMsgId savedMsgId : String) (now : Nat) : AppState :=
  match findChat st chatId with
  | none => st
  | some chat =>
    match outcome with
    | .toolCallExecJs callId argsRaw newScript content =>
      let oldScript := lastSnapshotScript chat
      let diffSummary := diffSummaryFor oldScript newScript
      -- save the script to the userscript so the user can see it
      let st1 := match findScript st chatId with
        | some scriptToUpdate =>
          clearExecutionResult
            (updateScriptForChat st chatId
              (fun s => { s with jsScript := newScript, updatedAt := now }))
            scriptToUpdate.id
        | none => st
      -- set pending approval
      let st2 := setPendingApprovalOp st1 chatId
        (some { jsScript := newScript, output := diffSummary }) now
      -- append the assistant message carrying the tool call and result
      let assistantMsg : ChatMessage :=
        { id := newMsgId, role := .assistant, content := content
          timestamp := now
          toolCalls := [{ id := callId, type := "function"
                          function := { name := "execute_js"
                                        arguments := argsRaw } }]
          toolResults := [{ toolCallId := callId, output := diffSummary }] }
      let st3 := match findChat st2 chatId with
        | some c => updateChat st2 chatId
            { c with messages := c.messages ++ [assistantMsg]
                     updatedAt := now }
        | none => st2
      { st3 with status := .IDLE }
    | .plain content extracted =>
      let assistantMsg : ChatMessage :=
        { id := newMsgId, role := .assistant, content := content
          timestamp := now }
      let chat1 :=
        { chat with messages := chat.messages ++ [assistantMsg]
                    updatedAt := now }
      let st1 := updateChat st chatId chat1
      match extracted with
      | some bestCode =>
        (match findScript st1 chatId with
         | some _ =>
           let st2 := updateScriptForChat st1 chatId
             (fun s => { s with jsScript := bestCode, enabled := true
                                updatedAt := now })
           let savedMsg : ChatMessage :=
             { id := savedMsgId, role := .assistant
               content := "✓ Code detected and saved to userscript."
               timestamp := now }
           let st3 := updateChat st2 chatId
             { chat1 with messages := chat1.messages ++ [savedMsg] }
           { st3 with status := .IDLE }
         | none => { st1 with status := .IDLE })
      | none => { st1 with status := .IDLE }
    | .abort =>
      -- AbortError: no message is appended, just reset the status
      { st with status := .IDLE }
    | .failure errMsg =>
      let errorMsg : ChatMessage :=
        { id := newMsgId, role := .assistant
          content := "Error: " ++ errMsg, timestamp := now }
      let st1 := updateChat st chatId
        { chat with messages := chat.messages ++ [errorMsg] }
      { st1 with status := .IDLE }

/-- One full `sendMessageToLLM` call, from appending the user message to
handling the resolved provider response. -/
def sendMessageToLLM (st : AppState) (chatId userMessage : String)
    (pageData : PageData) (userMsgId : String) (outcome : LLMOutcome)
    (newMsgId savedMsgId : String) (now : Nat) : AppState :=
  match findChat st chatId with
  | none => st
  | some _ =>
    handleLLMResponse (sendUserPhase st chatId userMessage pageData userMsgId now)
      chatId outcome newMsgId savedMsgId now

/-- `handleSaveEditMessage` up to (but not including) the resend: find
the edited message, truncate the history to just before it, append the
edited copy, persist, and clear `pendingApproval`.  The returned flag
says whether the guards passed and the resend is triggered. -/
def handleSaveEditMessage (st : AppState)
    (chatId editingMessageId editingMessageContent : String) (now : Nat) :
    AppState × Bool :=
  match findChat st chatId with
  | none => (st, false)
  | some chat =>
    if trimChars editingMessageContent.toList = [] then (st, false)
    else
      match findIndex (fun m => m.id == editingMessageId) chat.messages with
      | none => (st, false)
      | some messageIndex =>
        match chat.messages.get? messageIndex with
        | none => (st, false)
        | some orig =>
          let truncatedMessages := chat.messages.take messageIndex
          let editedMessage : ChatMessage :=
            { orig with
                content := (trimChars editingMessageContent.toList).asString
                timestamp := now }
          let chat1 :=
            { chat with messages := truncatedMessages ++ [editedMessage]
                        updatedAt := now
                        pendingApproval := none }
          (updateChat st chatId chat1, true)

/-- Edit-and-resend, up to the point where the resend has appended its
own user message (the state from which the model call is issued). -/
def editAndResendUserPhase (st : AppState)
    (chatId editingMessageId editingMessageContent : String)
    (pageData : PageData) (userMsgId : String) (now : Nat) : AppState :=
  let r := handleSaveEditMessage st chatId editingMessageId
    editingMessageContent now
  if r.2 then
    sendUserPhase r.1 chatId (trimChars editingMessageContent.toList).asString
      pageData userMsgId now
  else r.1

/-- `handleRevertToMessage` (`App.tsx`): truncate the history to include
the given message, clear `pendingApproval`, and restore the Task from the
message's snapshot when both the snapshot and the Task exist. -/
def handleRevertToMessage (st : AppState) (chatId : String)
    (msg : ChatMessage) (now : Nat) : AppState :=
  match findChat st chatId with
  | none => st
  | some chat =>
    match findIndex (fun m => m.id == msg.id) chat.messages with
    | none => st
    | some messageIndex =>
      let script? := findScript st chatId
      let chat1 :=
        { chat with messages := chat.messages.take (messageIndex + 1)
                    pendingApproval := none
                    updatedAt := now }
      let st1 := updateChat st chatId chat1
      match msg.scriptSnapshot, script? with
      | some snap, some _ =>
        updateScriptForChat st1 chatId
          (fun s => { s with name := snap.name, matchUrls := snap.matchUrls
                             jsScript := snap.jsScript
                             enabled := snap.enabled, updatedAt := now })
      | _, _ => st1

/-- `handleApprove` (`App.tsx`): with a chat selected and a pending
approval present, finalize the Task's name from the initial prompt (or
the domain of the initial URL when no prompt exists), enable it, append
the confirmation message and clear `pendingApproval`.  `domainOf` models
`getDomainFromUrl` (browser `URL.hostname`). -/
def handleApprove (st : AppState) (currentChatId : Option String)
    (domainOf : String → String) (confirmMsgId : String) (now : Nat) :
    AppState :=
  match currentChatId with
  | none => st
  | some chatId =>
    match findChat st chatId with
    | none => st
    | some chat =>
      match chat.pendingApproval with
      | none => st
      | some _ =>
        let st1 := match findScript st chatId with
          | some _ =>
            updateScriptForChat st chatId
              (fun s =>
                { s with
                    name :=
                      if chat.initialPrompt = "" then
                        "Script for " ++ domainOf chat.initialUrl
                      else (chat.initialPrompt.toList.take 100).asString
                    enabled := true
                    updatedAt := now })
          | none => st
        let confirmMsg : ChatMessage :=
          { id := confirmMsgId, role := .assistant
            content := "Userscript finalized! It will now run automatically on matching pages."
            timestamp := now }
        updateChat st1 chatId
          { chat with messages := chat.messages ++ [confirmMsg]
                      pendingApproval := none
                      updatedAt := now }

/-! ### Lemmas about `jsFind` / `updateFirst` -/

theorem jsFind_some_sat {β : Type} {p : β → Bool} :
    ∀ {l : List β} {x : β}, jsFind p l = some x → p x = true := by
  intro l
  induction l with
  | nil => intro x h; simp [jsFind] at h
  | cons y ys ih =>
      intro x h
      by_cases hy : p y
      · simp only [jsFind, if_pos hy, Option.some.injEq] at h
        exact h ▸ hy
      · simp only [jsFind, if_neg hy] at h
        exact ih h

theorem jsFind_updateFirst {β : Type} {p : β → Bool} {f : β → β} :
    ∀ {l : List β} {x : β}, jsFind p l = some x → p (f x) = true →
      jsFind p (updateFirst p f l) = some (f x) := by
  intro l
  induction l with
  | nil => intro x h _; simp [jsFind] at h
  | cons y ys ih =>
      intro x h hpf
      by_cases hy : p y
      · simp only [jsFind, if_pos hy, Option.some.injEq] at h
        subst h
        simp [updateFirst, if_pos hy, jsFind, hpf]
      · simp only [jsFind, if_neg hy] at h
        simp only [updateFirst, if_neg hy, jsFind, hy, if_neg]
        exact ih h hpf

theorem updateFirst_const_twice {β : Type} {p : β → Bool} {c : β}
    (g : β → β) (hc : p c = true) :
    ∀ l : List β, updateFirst p g (updateFirst p (fun _ => c) l) =
      updateFirst p (fun _ => g c) l := by
  intro l
  induction l with
  | nil => rfl
  | cons y ys ih =>
      by_cases hy : p y
      · simp [updateFirst, hy, hc]
      · simp [updateFirst, hy, ih]

theorem updateFirst_comp {β : Type} {p : β → Bool} {f : β → β}
    (g : β → β) (hpf : ∀ x, p (f x) = p x) :
    ∀ l : List β, updateFirst p g (updateFirst p f l) =
      updateFirst p (fun x => g (f x)) l := by
  intro l
  induction l with
  | nil => rfl
  | cons y ys ih =>
      by_cases hy : p y
      · simp [updateFirst, hy, hpf]
      · simp [updateFirst, hy, ih]

/-- The user message appended by `sendUserPhase`. -/
def mkUserMsg (st : AppState) (chatId userMessage userMsgId : String)
    (now : Nat) : ChatMessage :=
  { id := userMsgId, role := .user, content := userMessage, timestamp := now
    scriptSnapshot := (findScript st chatId).map toSnapshot }

/-- `sendUserPhase` appends exactly the snapshot-carrying user message,
leaves `pendingApproval` and the Task collection alone, and moves the
status to `SENDING_TO_LLM`. -/
theorem sendUserPhase_spec (st : AppState) (chatId userMessage : String)
    (pd : PageData) (userMsgId : String) (now : Nat) (chat : ChatHistory)
    (hfind : findChat st chatId = some chat) :
    (sendUserPhase st chatId userMessage pd userMsgId now).status =
        .SENDING_TO_LLM ∧
    (sendUserPhase st chatId userMessage pd userMsgId now).userscripts =
        st.userscripts ∧
    ∃ chat', findChat (sendUserPhase st chatId userMessage pd userMsgId now)
        chatId = some chat' ∧
      chat'.messages = chat.messages ++
        [mkUserMsg st chatId userMessage userMsgId now] ∧
      chat'.pendingApproval = chat.pendingApproval := by
  have hp := jsFind_some_sat (p := fun c : ChatHistory => c.id == chatId)
    (l := st.chatHistories) hfind
  unfold sendUserPhase
  simp only [hfind]
  split_ifs <;>
    refine ⟨by trivial, by trivial, _,
      jsFind_updateFirst hfind (by simpa using hp),
      by simp [mkUserMsg], by simp⟩

theorem findChat_updateScript (st : AppState) (chatId chatId' : String)
    (f : Userscript → Userscript) :
    findChat (updateScriptForChat st chatId' f) chatId = findChat st chatId :=
  rfl

theorem findChat_clearExec (st : AppState) (sid chatId : String) :
    findChat (clearExecutionResult st sid) chatId = findChat st chatId :=
  rfl

theorem findScript_updateChat (st : AppState) (cid : String)
    (c : ChatHistory) (chatId : String) :
    findScript (updateChat st cid c) chatId = findScript st chatId :=
  rfl

/-- Cancellation (`AbortError`) only resets the status: no message is
recorded and both collections are untouched. -/
theorem handleLLMResponse_abort (st : AppState) (chatId : String)
    (newMsgId savedMsgId : String) (now : Nat)
    (h : (findChat st chatId).isSome = true) :
    handleLLMResponse st chatId LLMOutcome.abort newMsgId savedMsgId now =
      { st with status := .IDLE } := by
  unfold handleLLMResponse
  cases hf : findChat st chatId with
  | none => rw [hf] at h; simp at h
  | some c => simp only [hf]

/-! ## Claim theorems -/

/-- Fixtures for concrete runs of the embedded operations. -/
def mkMsg (id : String) (r : Role) (content : String) : ChatMessage :=
  { id := id, role := r, content := content, timestamp := 0 }

def mkChat (id : String) (msgs : List ChatMessage) (prompt url : String) :
    ChatHistory :=
  { id := id, domain := "example.com", messages := msgs
    initialPrompt := prompt, initialUrl := url, initialScreenshot := ""
    initialHtml := "<html></html>", initialConsoleLog := ""
    pendingApproval := none, createdAt := 0, updatedAt := 0 }

def samplePd : PageData :=
  { screenshot := "", html := "<p>hi</p>", consoleLog := ""
    url := "https://example.com/page" }

/-- C7.  Cancellation leaves no residue: when the in-flight model call is
aborted by the user, the orchestrator returns to `IDLE`, no assistant
(or error) message is appended, and the just-sent user message is present
exactly once. -/
theorem cancellation_leaves_no_residue (st : AppState)
    (chatId userMessage : String) (pd : PageData)
    (userMsgId newMsgId savedMsgId : String) (now : Nat) (chat : ChatHistory)
    (hfind : findChat st chatId = some chat)
    (hfresh : ∀ m ∈ chat.messages, m.id ≠ userMsgId)
    (st2 : AppState)
    (hst2 : st2 = handleLLMResponse
        (sendUserPhase st chatId userMessage pd userMsgId now)
        chatId LLMOutcome.abort newMsgId savedMsgId now) :
    st2.status = StatusState.IDLE ∧
    ∃ chat2, findChat st2 chatId = some chat2 ∧
      chat2.messages = chat.messages ++
        [mkUserMsg st chatId userMessage userMsgId now] ∧
      (chat2.messages.filter (fun m => m.id == userMsgId)).length = 1 ∧
      chat2.messages.filter (fun m => m.role == Role.assistant) =
        chat.messages.filter (fun m => m.role == Role.assistant) := by
  obtain ⟨hstat, husc, chat', hfind', hmsgs, hpend⟩ :=
    sendUserPhase_spec st chatId userMessage pd userMsgId now chat hfind
  rw [handleLLMResponse_abort _ _ _ _ _ (by rw [hfind']; rfl)] at hst2
  subst hst2
  refine ⟨rfl, chat', hfind', hmsgs, ?_, ?_⟩
  · rw [hmsgs, List.filter_append]
    have h1 : chat.messages.filter (fun m => m.id == userMsgId) = [] := by
      rw [List.filter_eq_nil_iff]
      intro m hm
      simpa using hfresh m hm
    rw [h1]
    simp [mkUserMsg]
  · rw [hmsgs, List.filter_append]
    have h2 : [mkUserMsg st chatId userMessage userMsgId now].filter
        (fun m => m.role == Role.assistant) = [] := by
      simp [mkUserMsg]
    rw [h2, List.append_nil]

/-- Witness for C7: a concrete chat with one prior message, a fresh user
message id, and an aborted call. -/
theorem cancellation_leaves_no_residue_witness :
    (findChat
        { chatHistories := [mkChat "c" [mkMsg "m0" .user "first"] "first"
            "https://example.com/page"]
          userscripts := [], status := .IDLE, scriptExecutionResults := [] }
        "c" = some (mkChat "c" [mkMsg "m0" .user "first"] "first"
          "https://example.com/page")) ∧
    ((handleLLMResponse
        (sendUserPhase
          { chatHistories := [mkChat "c" [mkMsg "m0" .user "first"] "first"
              "https://example.com/page"]
            userscripts := [], status := .IDLE, scriptExecutionResults := [] }
          "c" "again" samplePd "u1" 7)
        "c" LLMOutcome.abort "a1" "s1" 7).status = StatusState.IDLE ∧
      ∃ chat2, findChat (handleLLMResponse
        (sendUserPhase
          { chatHistories := [mkChat "c" [mkMsg "m0" .user "first"] "first"
              "https://example.com/page"]
            userscripts := [], status := .IDLE, scriptExecutionResults := [] }
          "c" "again" samplePd "u1" 7)
        "c" LLMOutcome.abort "a1" "s1" 7) "c" = some chat2 ∧
        chat2.messages = (mkChat "c" [mkMsg "m0" .user "first"] "first"
            "https://example.com/page").messages ++
          [mkUserMsg
            { chatHistories := [mkChat "c" [mkMsg "m0" .user "first"] "first"
                "https://example.com/page"]
              userscripts := [], status := .IDLE, scriptExecutionResults := [] }
            "c" "again" "u1" 7] ∧
        (chat2.messages.filter (fun m => m.id == "u1")).length = 1 ∧
        chat2.messages.filter (fun m => m.role == Role.assistant) =
          (mkChat "c" [mkMsg "m0" .user "first"] "first"
            "https://example.com/page").messages.filter
            (fun m => m.role == Role.assistant)) := by
  refine ⟨by decide, cancellation_leaves_no_residue _ "c" "again" samplePd
    "u1" "a1" "s1" 7 _ (by decide) (by decide) _ rfl⟩

/-- A concrete conversation with three messages, used to exercise the
edit-and-resend path. -/
def editFixtureState : AppState :=
  { chatHistories := [mkChat "c"
      [mkMsg "m0" .user "first", mkMsg "m1" .assistant "reply",
       mkMsg "m2" .user "second"] "first" "https://example.com/page"]
    userscripts := [], status := .IDLE, scriptExecutionResults := [] }

/-- C1, counterexample.  Editing the user message at index 0 and
resending does NOT leave a message list of length 0 + 1: the handler
keeps its own edited copy and the resend appends a second user message
with the same content, so the list has length 2 and the claimed length 1
is refuted. -/
theorem edit_and_resend_counterexample :
    (findChat (editAndResendUserPhase editFixtureState "c" "m0" "edited"
        samplePd "u9" 5) "c").map (fun c => c.messages.length) = some 2 ∧
    (((findChat (editAndResendUserPhase editFixtureState "c" "m0" "edited"
        samplePd "u9" 5) "c").map (fun c => c.messages.length) = some 1) →
      False) ∧
    (findChat (editAndResendUserPhase editFixtureState "c" "m0" "edited"
        samplePd "u9" 5) "c").map
        (fun c => c.messages.map (fun m => m.content)) =
      some ["edited", "edited"] := by
  refine ⟨by decide, by decide, by decide⟩

/-- C1, amended.  Editing the message at index `i` truncates the history
to just before it and appends the edited copy, so the saved state at the
moment the resend starts has exactly `i + 1` messages, none of the
previously-following messages survives, and `pendingApproval` is cleared
before the resend; the resend then appends one further (fresh) user
message carrying the edited content, so the list observed after the
resend's append has length `i + 2`. -/
theorem edit_truncates_and_resend_appends (st : AppState)
    (chatId mid contentRaw : String) (pd : PageData) (userMsgId : String)
    (now : Nat) (chat : ChatHistory)
    (hfind : findChat st chatId = some chat)
    (i : Nat) (hidx : findIndex (fun m => m.id == mid) chat.messages = some i)
    (orig : ChatMessage) (hget : chat.messages.get? i = some orig)
    (htrim : ¬ trimChars contentRaw.toList = []) :
    (handleSaveEditMessage st chatId mid contentRaw now).2 = true ∧
    (∃ chat1, findChat (handleSaveEditMessage st chatId mid contentRaw now).1
        chatId = some chat1 ∧
      chat1.messages = chat.messages.take i ++
        [{ orig with content := (trimChars contentRaw.toList).asString
                     timestamp := now }] ∧
      chat1.messages.length = i + 1 ∧
      chat1.pendingApproval = none) ∧
    (∃ chat2, findChat (editAndResendUserPhase st chatId mid contentRaw pd
        userMsgId now) chatId = some chat2 ∧
      chat2.messages.length = i + 2 ∧
      (chat2.messages.get? (i + 1)).map (fun m => (m.content, m.role)) =
        some ((trimChars contentRaw.toList).asString, Role.user)) := by
  have hp := jsFind_some_sat (p := fun c : ChatHistory => c.id == chatId)
    (l := st.chatHistories) hfind
  obtain ⟨hlt, -⟩ := List.get?_eq_some.mp hget
  have hlentake : (chat.messages.take i).length = i := by
    rw [List.length_take]
    omega
  have hsave : handleSaveEditMessage st chatId mid contentRaw now =
      (updateChat st chatId
        { chat with
            messages := chat.messages.take i ++
              [{ orig with
                  content := (trimChars contentRaw.toList).asString
                  timestamp := now }]
            updatedAt := now
            pendingApproval := none }, true) := by
    unfold handleSaveEditMessage
    simp only [hfind, if_neg htrim, hidx, hget]
  have hfind1 : findChat (handleSaveEditMessage st chatId mid contentRaw
      now).1 chatId = some
      { chat with
          messages := chat.messages.take i ++
            [{ orig with
                content := (trimChars contentRaw.toList).asString
                timestamp := now }]
          updatedAt := now
          pendingApproval := none } := by
    rw [hsave]
    exact jsFind_updateFirst hfind (by simpa using hp)
  refine ⟨by rw [hsave], ⟨_, hfind1, rfl, by simp [hlentake], rfl⟩, ?_⟩
  · unfold editAndResendUserPhase
    rw [hsave]
    simp only [if_pos]
    obtain ⟨-, -, chat2, hfind2, hmsgs2, -⟩ :=
      sendUserPhase_spec (updateChat st chatId _) chatId
        (trimChars contentRaw.toList).asString pd userMsgId now _
        (by rw [hsave] at hfind1; exact hfind1)
    refine ⟨chat2, hfind2, ?_, ?_⟩
    · rw [hmsgs2]
      simp [hlentake]
    · rw [hmsgs2]
      rw [List.get?_append_right (by simp [hlentake])]
      simp [hlentake, mkUserMsg]

/-- Witness for C1's amended theorem: the edit fixture at index 1. -/
theorem edit_truncates_and_resend_appends_witness :
    ((handleSaveEditMessage editFixtureState "c" "m1" " fixed " 5).2 = true ∧
    (∃ chat1, findChat (handleSaveEditMessage editFixtureState "c" "m1"
        " fixed " 5).1 "c" = some chat1 ∧
      chat1.messages = (mkChat "c"
          [mkMsg "m0" .user "first", mkMsg "m1" .assistant "reply",
           mkMsg "m2" .user "second"] "first"
          "https://example.com/page").messages.take 1 ++
        [{ mkMsg "m1" .assistant "reply" with
            content := (trimChars " fixed ".toList).asString
            timestamp := 5 }] ∧
      chat1.messages.length = 1 + 1 ∧
      chat1.pendingApproval = none) ∧
    (∃ chat2, findChat (editAndResendUserPhase editFixtureState "c" "m1"
        " fixed " samplePd "u9" 5) "c" = some chat2 ∧
      chat2.messages.length = 1 + 2 ∧
      (chat2.messages.get? (1 + 1)).map (fun m => (m.content, m.role)) =
        some ((trimChars " fixed ".toList).asString, Role.user))) := by
  exact edit_truncates_and_resend_appends editFixtureState "c" "m1" " fixed "
    samplePd "u9" 5 _ (by decide) 1 (by decide) (mkMsg "m1" .assistant "reply")
    (by decide) (by decide)

theorem findIndex_take {β : Type} (p : β → Bool) :
    ∀ (l : List β) (i : Nat), findIndex p l = some i →
      findIndex p (l.take (i + 1)) = some i := by
  intro l
  induction l with
  | nil => intro i h; simp [findIndex] at h
  | cons x xs ih =>
      intro i h
      by_cases hx : p x
      · simp only [findIndex, if_pos hx, Option.some.injEq] at h
        subst h
        simp [findIndex, hx]
      · simp only [findIndex, if_neg hx] at h
        cases hfx : findIndex p xs with
        | none => rw [hfx] at h; simp at h
        | some j =>
            rw [hfx] at h
            simp only [Option.map_some', Option.some.injEq] at h
            subst h
            simp only [List.take_succ_cons, findIndex, if_neg hx,
              ih j hfx, Option.map_some']

/-- C4.  Revert-to-message: for a past user message carrying a script
snapshot, reverting truncates the history to include that message,
restores the Task's `{name, matchPattern, script, enabled}` from the
snapshot, clears `pendingApproval` — and the whole operation is
idempotent: reverting twice is the same state as reverting once. -/
theorem revert_restores_snapshot_and_is_idempotent (st : AppState)
    (chatId : String) (msg : ChatMessage) (now : Nat) (chat : ChatHistory)
    (hfind : findChat st chatId = some chat)
    (i : Nat) (hidx : findIndex (fun m => m.id == msg.id) chat.messages = some i)
    (snap : UserscriptSnapshot) (hsnap : msg.scriptSnapshot = some snap)
    (script : Userscript) (hscript : findScript st chatId = some script)
    (st1 : AppState) (hst1 : st1 = handleRevertToMessage st chatId msg now) :
    (∃ chat1, findChat st1 chatId = some chat1 ∧
      chat1.messages = chat.messages.take (i + 1) ∧
      chat1.pendingApproval = none) ∧
    (∃ s1, findScript st1 chatId = some s1 ∧
      s1.name = snap.name ∧ s1.matchUrls = snap.matchUrls ∧
      s1.jsScript = snap.jsScript ∧ s1.enabled = snap.enabled) ∧
    handleRevertToMessage st1 chatId msg now = st1 := by
  have hp := jsFind_some_sat (p := fun c : ChatHistory => c.id == chatId)
    (l := st.chatHistories) hfind
  have hq := jsFind_some_sat (p := fun s : Userscript => s.chatHistoryId == chatId)
    (l := st.userscripts) hscript
  have hrev : handleRevertToMessage st chatId msg now =
      updateScriptForChat
        (updateChat st chatId
          { chat with messages := chat.messages.take (i + 1)
                      pendingApproval := none
                      updatedAt := now })
        chatId
        (fun s => { s with name := snap.name, matchUrls := snap.matchUrls
                           jsScript := snap.jsScript, enabled := snap.enabled
                           updatedAt := now }) := by
    unfold handleRevertToMessage
    simp only [hfind, hidx, hsnap, hscript]
  subst hst1
  rw [hrev]
  have hfind1 : findChat
      (updateScriptForChat
        (updateChat st chatId
          { chat with messages := chat.messages.take (i + 1)
                      pendingApproval := none
                      updatedAt := now })
        chatId
        (fun s => { s with name := snap.name, matchUrls := snap.matchUrls
                           jsScript := snap.jsScript, enabled := snap.enabled
                           updatedAt := now }))
      chatId = some
      { chat with messages := chat.messages.take (i + 1)
                  pendingApproval := none
                  updatedAt := now } :=
    jsFind_updateFirst hfind (by simpa using hp)
  have hscript1 : findScript
      (updateScriptForChat
        (updateChat st chatId
          { chat with messages := chat.messages.take (i + 1)
                      pendingApproval := none
                      updatedAt := now })
        chatId
        (fun s => { s with name := snap.name, matchUrls := snap.matchUrls
                           jsScript := snap.jsScript, enabled := snap.enabled
                           updatedAt := now }))
      chatId = some
      { script with name := snap.name, matchUrls := snap.matchUrls
                    jsScript := snap.jsScript, enabled := snap.enabled
                    updatedAt := now } :=
    jsFind_updateFirst hscript (by simpa using hq)
  refine ⟨⟨_, hfind1, by simp, by simp⟩,
    ⟨_, hscript1, by simp, by simp, by simp, by simp⟩, ?_⟩
  have hidx1 : findIndex (fun m => m.id == msg.id)
      (chat.messages.take (i + 1)) = some i := findIndex_take _ _ _ hidx
  unfold handleRevertToMessage
  simp only [hfind1, hscript1, hidx1, hsnap]
  unfold updateScriptForChat updateChat
  simp only [List.take_take, Nat.min_self, AppState.mk.injEq]
  exact ⟨updateFirst_const_twice _ (by simpa using hp) _,
    by rw [updateFirst_comp _ (fun x => by simp)]; simp⟩

/-- A user message carrying a script snapshot, for the revert fixture. -/
def revertMsgFixture : ChatMessage :=
  { mkMsg "m0" .user "go" with
      scriptSnapshot := some
        { name := "Old name", matchUrls := "https://old"
          jsScript := "old();", enabled := false } }

def revertScriptFixture : Userscript :=
  { id := "s", name := "Cur", matchUrls := "https://cur", jsScript := "cur();"
    chatHistoryId := "c", createdAt := 0, updatedAt := 0, enabled := true }

def revertChatFixture : ChatHistory :=
  { mkChat "c" [revertMsgFixture, mkMsg "m1" .assistant "done"] "go"
      "https://example.com/page" with
      pendingApproval := some { jsScript := "cur();", output := "diff" } }

def revertFixtureState : AppState :=
  { chatHistories := [revertChatFixture]
    userscripts := [revertScriptFixture]
    status := .IDLE, scriptExecutionResults := [] }

/-- Witness for C4: double revert on the concrete fixture equals single
revert. -/
theorem revert_idempotent_witness :
    (∃ chat1, findChat (handleRevertToMessage revertFixtureState "c"
        revertMsgFixture 9) "c" = some chat1 ∧
      chat1.messages = revertChatFixture.messages.take (0 + 1) ∧
      chat1.pendingApproval = none) ∧
    (∃ s1, findScript (handleRevertToMessage revertFixtureState "c"
        revertMsgFixture 9) "c" = some s1 ∧
      s1.name = "Old name" ∧ s1.matchUrls = "https://old" ∧
      s1.jsScript = "old();" ∧ s1.enabled = false) ∧
    handleRevertToMessage (handleRevertToMessage revertFixtureState "c"
      revertMsgFixture 9) "c" revertMsgFixture 9 =
      handleRevertToMessage revertFixtureState "c" revertMsgFixture 9 := by
  exact revert_restores_snapshot_and_is_idempotent revertFixtureState "c"
    revertMsgFixture 9 revertChatFixture (by decide) 0 (by decide)
    { name := "Old name", matchUrls := "https://old"
      jsScript := "old();", enabled := false } (by decide)
    revertScriptFixture (by decide) _ rfl

/-- C5.  Approval: with a conversation selected and a non-null
`pendingApproval`, `handleApprove` clears `pendingApproval`, enables the
Task, finalizes its name from the initial prompt (first 100 characters)
or from the domain of the initial URL when no prompt exists, and appends
a confirmation message. -/
theorem approve_clears_pending_and_enables (st : AppState) (chatId : String)
    (domainOf : String → String) (confirmMsgId : String) (now : Nat)
    (chat : ChatHistory) (hfind : findChat st chatId = some chat)
    (pa : PendingApproval) (hpa : chat.pendingApproval = some pa)
    (script : Userscript) (hscript : findScript st chatId = some script)
    (st' : AppState)
    (hst' : st' = handleApprove st (some chatId) domainOf confirmMsgId now) :
    (∃ chat', findChat st' chatId = some chat' ∧
      chat'.pendingApproval = none ∧
      chat'.messages = chat.messages ++
        [{ id := confirmMsgId, role := .assistant
           content := "Userscript finalized! It will now run automatically on matching pages."
           timestamp := now }]) ∧
    (∃ s', findScript st' chatId = some s' ∧ s'.enabled = true ∧
      (chat.initialPrompt = "" →
        s'.name = "Script for " ++ domainOf chat.initialUrl) ∧
      (chat.initialPrompt ≠ "" →
        s'.name = (chat.initialPrompt.toList.take 100).asString)) := by
  have hp := jsFind_some_sat (p := fun c : ChatHistory => c.id == chatId)
    (l := st.chatHistories) hfind
  have hq := jsFind_some_sat (p := fun s : Userscript => s.chatHistoryId == chatId)
    (l := st.userscripts) hscript
  rw [hst']
  unfold handleApprove
  simp only [hfind, hpa, hscript]
  refine ⟨⟨_, jsFind_updateFirst hfind (by simpa using hp), by simp, by simp⟩,
    ⟨_, jsFind_updateFirst hscript (by simpa using hq), by simp, ?_, ?_⟩⟩
  · intro h
    simp [h]
  · intro h
    simp [h]

def approveScriptFixture : Userscript :=
  { id := "s", name := "New Script for example.com"
    matchUrls := defaultMatchPattern "example.com", jsScript := "d();"
    chatHistoryId := "c", createdAt := 0, updatedAt := 0, enabled := true }

def approveChatFixture : ChatHistory :=
  { mkChat "c" [mkMsg "m0" .user "make it dark"] "make it dark"
      "https://example.com/page" with
      pendingApproval := some { jsScript := "d();", output := "+1 lines" } }

def approveFixtureState : AppState :=
  { chatHistories := [approveChatFixture]
    userscripts := [approveScriptFixture]
    status := .IDLE, scriptExecutionResults := [] }

/-- Witness for C5 at the approval fixture. -/
theorem approve_clears_pending_and_enables_witness :
    (∃ chat', findChat (handleApprove approveFixtureState (some "c")
        (fun _ => "example.com") "cm" 9) "c" = some chat' ∧
      chat'.pendingApproval = none ∧
      chat'.messages = approveChatFixture.messages ++
        [{ id := "cm", role := .assistant
           content := "Userscript finalized! It will now run automatically on matching pages."
           timestamp := 9 }]) ∧
    (∃ s', findScript (handleApprove approveFixtureState (some "c")
        (fun _ => "example.com") "cm" 9) "c" = some s' ∧ s'.enabled = true ∧
      (approveChatFixture.initialPrompt = "" →
        s'.name = "Script for " ++ "example.com") ∧
      (approveChatFixture.initialPrompt ≠ "" →
        s'.name = (approveChatFixture.initialPrompt.toList.take 100).asString)) := by
  exact approve_clears_pending_and_enables approveFixtureState "c"
    (fun _ => "example.com") "cm" 9 approveChatFixture (by decide)
    { jsScript := "d();", output := "+1 lines" } (by decide)
    approveScriptFixture (by decide) _ rfl

/-- The state right after `handleNewChat` created a fresh conversation
and its (empty-script, enabled-by-default) Task. -/
def newChatFixture : AppState :=
  handleNewChat
    { chatHistories := [], userscripts := [], status := .IDLE
      scriptExecutionResults := [] }
    samplePd (fun _ => "example.com") "c" "s" 0

/-- The fixture after the first user message and an `execute_js` tool
call returning a non-empty script. -/
def afterToolCallFixture : AppState :=
  handleLLMResponse (sendUserPhase newChatFixture "c" "add dark mode"
      samplePd "u1" 1)
    "c" (LLMOutcome.toolCallExecJs "call1" "raw-args-json"
      "document.title = 1;" "Testing the change.") "a1" "s1" 2

/-- The conversation as it stands when the tool call is handled (after
the user message was appended). -/
def sendUserPhaseChatFixture : ChatHistory :=
  (findChat (sendUserPhase newChatFixture "c" "add dark mode" samplePd "u1" 1)
    "c").getD (mkChat "x" [] "" "")

/-- C2, counterexample.  After an `execute_js` tool call returning a
non-empty script, the returned script is persisted on the Task, but the
Task is NOT in a not-yet-enabled state: `handleNewChat` created it with
`enabled: true` and the tool-call handler never touches the flag, so the
Task is enabled, refuting "with the Task not yet enabled". -/
theorem tool_call_enabled_counterexample :
    (findScript afterToolCallFixture "c").map (fun s => s.jsScript) =
      some "document.title = 1;" ∧
    (findScript afterToolCallFixture "c").map (fun s => s.enabled) =
      some true ∧
    (((findScript afterToolCallFixture "c").map (fun s => s.enabled) =
      some false) → False) := by
  refine ⟨by decide, by decide, by decide⟩

/-- C2, amended.  When the model response contains an `execute_js` tool
call, the orchestrator persists the returned script as the Task's script
without changing the `enabled` flag (the Task, created enabled-by-default,
simply keeps its previous flag), sets `pendingApproval` to the
script/diff-summary pair — with `pendingApproval`'s script equal to the
Task's new script — and appends an assistant message carrying the tool
call and its result. -/
theorem tool_call_persists_draft (st : AppState)
    (chatId callId argsRaw newScript content newMsgId savedMsgId : String)
    (now : Nat) (chat : ChatHistory)
    (hfind : findChat st chatId = some chat)
    (script : Userscript) (hscript : findScript st chatId = some script)
    (st' : AppState)
    (hst' : st' = handleLLMResponse st chatId
        (LLMOutcome.toolCallExecJs callId argsRaw newScript content)
        newMsgId savedMsgId now) :
    st'.status = StatusState.IDLE ∧
    (∃ s', findScript st' chatId = some s' ∧
      s'.jsScript = newScript ∧ s'.enabled = script.enabled) ∧
    (∃ chat', findChat st' chatId = some chat' ∧
      chat'.pendingApproval = some
        { jsScript := newScript
          output := diffSummaryFor (lastSnapshotScript chat) newScript } ∧
      chat'.pendingApproval.map (fun p => p.jsScript) = some newScript ∧
      chat'.messages = chat.messages ++
        [{ id := newMsgId, role := .assistant, content := content
           timestamp := now
           toolCalls := [{ id := callId, type := "function"
                           function := { name := "execute_js"
                                         arguments := argsRaw } }]
           toolResults := [{ toolCallId := callId
                             output := diffSummaryFor (lastSnapshotScript chat)
                               newScript }] }]) := by
  have hp := jsFind_some_sat (p := fun c : ChatHistory => c.id == chatId)
    (l := st.chatHistories) hfind
  have hq := jsFind_some_sat (p := fun s : Userscript => s.chatHistoryId == chatId)
    (l := st.userscripts) hscript
  have hfind1 : findChat (clearExecutionResult
      (updateScriptForChat st chatId
        (fun s => { s with jsScript := newScript, updatedAt := now }))
      script.id) chatId = some chat := hfind
  have hfind2 : findChat (updateChat (clearExecutionResult
      (updateScriptForChat st chatId
        (fun s => { s with jsScript := newScript, updatedAt := now }))
      script.id) chatId
      { chat with
          pendingApproval := some
            { jsScript := newScript
              output := diffSummaryFor (lastSnapshotScript chat) newScript }
          updatedAt := now }) chatId = some
      { chat with
          pendingApproval := some
            { jsScript := newScript
              output := diffSummaryFor (lastSnapshotScript chat) newScript }
          updatedAt := now } :=
    jsFind_updateFirst hfind1 (by simpa using hp)
  rw [hst']
  unfold handleLLMResponse setPendingApprovalOp
  simp only [hfind, hfind1, hfind2, hscript]
  refine ⟨by trivial,
    ⟨_, jsFind_updateFirst hscript (by simpa using hq), by simp, by simp⟩,
    ⟨_, jsFind_updateFirst hfind2 (by simpa using hp), by simp, by simp,
      by simp⟩⟩

/-- Witness for C2's amended theorem, at the new-chat fixture. -/
theorem tool_call_persists_draft_witness :
    (afterToolCallFixture.status = StatusState.IDLE ∧
    (∃ s', findScript afterToolCallFixture "c" = some s' ∧
      s'.jsScript = "document.title = 1;" ∧
      s'.enabled = (Userscript.mk "s" "New Script for example.com"
        (defaultMatchPattern "example.com") "" "c" 0 0 true).enabled) ∧
    (∃ chat', findChat afterToolCallFixture "c" = some chat' ∧
      chat'.pendingApproval = some
        { jsScript := "document.title = 1;"
          output := diffSummaryFor
            (lastSnapshotScript (sendUserPhaseChatFixture)) "document.title = 1;" } ∧
      chat'.pendingApproval.map (fun p => p.jsScript) =
        some "document.title = 1;" ∧
      chat'.messages = (sendUserPhaseChatFixture).messages ++
        [{ id := "a1", role := .assistant, content := "Testing the change."
           timestamp := 2
           toolCalls := [{ id := "call1", type := "function"
                           function := { name := "execute_js"
                                         arguments := "raw-args-json" } }]
           toolResults := [{ toolCallId := "call1"
                             output := diffSummaryFor
                               (lastSnapshotScript (sendUserPhaseChatFixture))
                               "document.title = 1;" }] }])) := by
  exact tool_call_persists_draft _ "c" "call1" "raw-args-json"
    "document.title = 1;" "Testing the change." "a1" "s1" 2
    sendUserPhaseChatFixture (by decide)
    (Userscript.mk "s" "New Script for example.com"
      (defaultMatchPattern "example.com") "" "c" 0 0 true) (by decide) _ rfl

/-- C3.  Diff semantics and symmetry: the tool-result diff summary is a
line-content-set difference — `removed` counts the (distinct, trimmed,
non-empty) lines present only in the old script and `added` the lines
present only in the new one; diffing any non-empty script against itself
yields a zero diff, and any two scripts with the same line-content set
(in particular any reordering with no content change) show a zero diff. -/
theorem diff_is_line_set_difference :
    (∀ oldS newS : String,
        diffRemoved oldS newS =
          ((diffLines oldS).toFinset \ (diffLines newS).toFinset).card ∧
        diffAdded oldS newS =
          ((diffLines newS).toFinset \ (diffLines oldS).toFinset).card) ∧
    (∀ A : String, A ≠ "" → diffRemoved A A = 0 ∧ diffAdded A A = 0) ∧
    (∀ A B : String, (diffLines A).toFinset = (diffLines B).toFinset →
        diffRemoved A B = 0 ∧ diffAdded A B = 0) := by
  refine ⟨fun oldS newS => ⟨diffRemoved_eq_card .., diffAdded_eq_card ..⟩, ?_, ?_⟩
  · intro A _
    rw [diffRemoved_eq_card, diffAdded_eq_card]
    simp
  · intro A B h
    rw [diffRemoved_eq_card, diffAdded_eq_card, h]
    simp

/-- Witness for C3 at concrete inputs: `"b\na"` is a reordering of
`"a\nb"`, and both self-diff and reorder-diff are zero. -/
theorem diff_is_line_set_difference_witness :
    ("a\nb" ≠ "" ∧ diffRemoved "a\nb" "a\nb" = 0 ∧ diffAdded "a\nb" "a\nb" = 0) ∧
    ((diffLines "a\nb").toFinset = (diffLines "b\na").toFinset ∧
      diffRemoved "a\nb" "b\na" = 0 ∧ diffAdded "a\nb" "b\na" = 0) := by
  refine ⟨⟨by decide, diff_is_line_set_difference.2.1 "a\nb" (by decide)⟩,
    ⟨by decide, diff_is_line_set_difference.2.2 "a\nb" "b\na" (by decide)⟩⟩

/-- C10.  Console-log buffer invariant: after any sequence of captured
console events the buffer holds at most `MAX_CONSOLE_LOGS` entries, and
it is exactly the suffix of the most recent (at most) 100 events in
order — an append that would exceed the bound drops the oldest entry. -/
theorem console_buffer_invariant :
    ∀ events : List String,
      (captureAll events).length ≤ MAX_CONSOLE_LOGS ∧
      captureAll events = events.drop (events.length - MAX_CONSOLE_LOGS) := by
  have key : ∀ events : List String,
      captureAll events = events.drop (events.length - MAX_CONSOLE_LOGS) := by
    intro events
    induction events using List.reverseRecOn with
    | nil => simp [captureAll]
    | append_singleton es e ih =>
        have hstep : captureAll (es ++ [e]) = addLog (captureAll es) e := by
          simp [captureAll]
        rw [hstep, ih]
        unfold addLog
        by_cases h : MAX_CONSOLE_LOGS < (es.drop (es.length - MAX_CONSOLE_LOGS) ++ [e]).length
        · -- the buffer was full: the oldest entry is dropped
          rw [if_pos h]
          have hpos : 0 < MAX_CONSOLE_LOGS := by norm_num [MAX_CONSOLE_LOGS]
          have hlen : (es.drop (es.length - MAX_CONSOLE_LOGS)).length =
              es.length - (es.length - MAX_CONSOLE_LOGS) := List.length_drop ..
          have hfull : MAX_CONSOLE_LOGS ≤ es.length := by
            by_contra hlt
            push_neg at hlt
            have h0 : es.length - MAX_CONSOLE_LOGS = 0 := Nat.sub_eq_zero_of_le hlt.le
            rw [h0, List.drop_zero] at h
            simp only [List.length_append, List.length_singleton] at h
            omega
          have hne : es.drop (es.length - MAX_CONSOLE_LOGS) ≠ [] := by
            intro hnil
            have hl0 := congrArg List.length hnil
            rw [hlen] at hl0
            simp only [List.length_nil] at hl0
            omega
          rw [List.tail_append_of_ne_nil hne, List.tail_drop]
          have harith : (es ++ [e]).length - MAX_CONSOLE_LOGS =
              es.length - MAX_CONSOLE_LOGS + 1 := by
            simp only [List.length_append, List.length_singleton]
            omega
          rw [harith, List.drop_append_of_le_length (by omega)]
        · -- still below the bound: plain append
          rw [if_neg h]
          have hlen : (es.drop (es.length - MAX_CONSOLE_LOGS)).length =
              es.length - (es.length - MAX_CONSOLE_LOGS) := List.length_drop ..
          push_neg at h
          simp only [List.length_append, List.length_singleton, hlen] at h
          have hle : es.length ≤ MAX_CONSOLE_LOGS := by omega
          have h1 : es.length - MAX_CONSOLE_LOGS = 0 := Nat.sub_eq_zero_of_le hle
          have h2 : (es ++ [e]).length - MAX_CONSOLE_LOGS = 0 := by
            simp only [List.length_append, List.length_singleton]
            omega
          rw [h1, h2, List.drop_zero, List.drop_zero]
  intro events
  refine ⟨?_, key events⟩
  rw [key events, List.length_drop]
  omega

/-! ## Script-registry auto-run
(`chrome.webNavigation.onCompleted` listener in the background worker)

`new RegExp(pattern)` (which throws on a malformed pattern) and the
sandboxed script execution (which may throw) are engine effects, modelled
as `Except`-valued parameters. -/

/-- The per-Task record written by `storeExecutionResult`. -/
structure ExecutionRecord where
  scriptId : String
  success : Bool
  error : Option String
deriving DecidableEq, Repr

/-- One iteration of the auto-run loop: disabled or script-less Tasks
are skipped; a malformed `matchUrls` pattern is caught by the per-Task
`try/catch` and recorded as that Task's failure; a matching Task is
executed, with a thrown script error likewise caught and recorded. -/
def autoRunOne (evalRegex : String → Except String (String → Bool))
    (runScript : String → Except String Unit) (url : String)
    (script : Userscript) : Option ExecutionRecord :=
  if script.enabled = true ∧ script.jsScript ≠ "" then
    match evalRegex script.matchUrls with
    | .error e => some { scriptId := script.id, success := false
                         error := some e }
    | .ok test =>
      if test url then
        match runScript script.jsScript with
        | .ok _ => some { scriptId := script.id, success := true
                          error := none }
        | .error e => some { scriptId := script.id, success := false
                             error := some e }
      else none
  else none

/-- The listener's pass over the whole stored Task list, in order,
collecting the execution records it stores. -/
def autoRunAll (evalRegex : String → Except String (String → Bool))
    (runScript : String → Except String Unit) (url : String)
    (userscripts : List Userscript) : List ExecutionRecord :=
  userscripts.foldl
    (fun acc s => acc ++ (autoRunOne evalRegex runScript url s).toList) []

theorem autoRunAll_acc (evalRegex : String → Except String (String → Bool))
    (runScript : String → Except String Unit) (url : String) :
    ∀ (l : List Userscript) (acc : List ExecutionRecord),
      l.foldl (fun acc s => acc ++ (autoRunOne evalRegex runScript url s).toList)
        acc = acc ++ autoRunAll evalRegex runScript url l := by
  intro l
  induction l with
  | nil => intro acc; simp [autoRunAll]
  | cons x xs ih =>
      intro acc
      simp only [autoRunAll, List.foldl_cons, List.nil_append]
      rw [ih, ih ((autoRunOne evalRegex runScript url x).toList)]
      simp

/-- C6.  Registry isolation: the auto-run pass decomposes Task-by-Task —
the records produced for any sublist are unaffected by the surrounding
Tasks, and an enabled Task with a non-empty script, a well-formed
`matchUrls` pattern and a matching URL is executed (its success record is
stored) no matter what the other Tasks do: a neighbour whose pattern
evaluation throws, or whose script throws, only contributes its own
failure record. -/
theorem registry_isolation
    (evalRegex : String → Except String (String → Bool))
    (runScript : String → Except String Unit) (url : String) :
    (∀ l1 l2 : List Userscript,
      autoRunAll evalRegex runScript url (l1 ++ l2) =
        autoRunAll evalRegex runScript url l1 ++
        autoRunAll evalRegex runScript url l2) ∧
    (∀ (pre post : List Userscript) (T1 : Userscript)
        (test : String → Bool),
      T1.enabled = true → T1.jsScript ≠ "" →
      evalRegex T1.matchUrls = .ok test → test url = true →
      runScript T1.jsScript = .ok () →
      autoRunAll evalRegex runScript url (pre ++ T1 :: post) =
        autoRunAll evalRegex runScript url pre ++
        { scriptId := T1.id, success := true, error := none } ::
        autoRunAll evalRegex runScript url post ∧
      ({ scriptId := T1.id, success := true, error := none }
          : ExecutionRecord) ∈
        autoRunAll evalRegex runScript url (pre ++ T1 :: post)) := by
  have happ : ∀ l1 l2 : List Userscript,
      autoRunAll evalRegex runScript url (l1 ++ l2) =
        autoRunAll evalRegex runScript url l1 ++
        autoRunAll evalRegex runScript url l2 := by
    intro l1 l2
    unfold autoRunAll
    rw [List.foldl_append, autoRunAll_acc, autoRunAll_acc]
    simp [autoRunAll]
  refine ⟨happ, ?_⟩
  intro pre post T1 test hen hjs hre htest hrun
  have hone : autoRunOne evalRegex runScript url T1 =
      some { scriptId := T1.id, success := true, error := none } := by
    unfold autoRunOne
    rw [if_pos ⟨hen, hjs⟩, hre]
    simp only [htest, if_true, hrun]
  have hmid : autoRunAll evalRegex runScript url (T1 :: post) =
      { scriptId := T1.id, success := true, error := none } ::
        autoRunAll evalRegex runScript url post := by
    unfold autoRunAll
    simp only [List.foldl_cons, List.nil_append, hone]
    rw [autoRunAll_acc]
    simp [autoRunAll]
  have hfull := happ pre (T1 :: post)
  rw [hmid] at hfull
  exact ⟨hfull, by rw [hfull]; simp⟩

/-- A valid Task matching `https://x/`, flanked by a Task with a
malformed regex and a Task whose script throws. -/
def okTaskFixture : Userscript :=
  { id := "t1", name := "ok", matchUrls := "goodpat", jsScript := "t1();"
    chatHistoryId := "c1", createdAt := 0, updatedAt := 0, enabled := true }

def malformedTaskFixture : Userscript :=
  { id := "t2", name := "mal", matchUrls := "bad(", jsScript := "t2();"
    chatHistoryId := "c2", createdAt := 0, updatedAt := 0, enabled := true }

def throwingTaskFixture : Userscript :=
  { id := "t3", name := "boom", matchUrls := "goodpat"
    jsScript := "throws();", chatHistoryId := "c3", createdAt := 0
    updatedAt := 0, enabled := true }

/-- A concrete regex engine: the pattern `bad(` throws, everything else
matches exactly the URL `https://x/`. -/
def evalRegexFixture (p : String) : Except String (String → Bool) :=
  if p = "bad(" then .error "Invalid regular expression"
  else .ok (fun u => u == "https://x/")

/-- A concrete page runtime: the script `throws();` throws. -/
def runScriptFixture (s : String) : Except String Unit :=
  if s = "throws();" then .error "boom" else .ok ()

/-- Witness for C6: the valid Task between a malformed-regex Task and a
throwing Task is still executed and its success record stored. -/
theorem registry_isolation_witness :
    autoRunAll evalRegexFixture runScriptFixture "https://x/"
        ([malformedTaskFixture] ++ okTaskFixture :: [throwingTaskFixture]) =
      autoRunAll evalRegexFixture runScriptFixture "https://x/"
        [malformedTaskFixture] ++
      { scriptId := "t1", success := true, error := none } ::
      autoRunAll evalRegexFixture runScriptFixture "https://x/"
        [throwingTaskFixture] ∧
    ({ scriptId := "t1", success := true, error := none }
        : ExecutionRecord) ∈
      autoRunAll evalRegexFixture runScriptFixture "https://x/"
        ([malformedTaskFixture] ++ okTaskFixture :: [throwingTaskFixture]) := by
  exact (registry_isolation evalRegexFixture runScriptFixture "https://x/").2
    [malformedTaskFixture] [throwingTaskFixture] okTaskFixture
    (fun u => u == "https://x/") (by decide) (by decide) rfl (by decide) rfl

/-! ## High-entropy scrubbing (`truncateHighEntropyStrings`, `src/utils.ts`)

The two global `String.replace` passes are modelled as left-to-right
scanners over `List Char`.  The first pass is the regex
`(data:[^;]+;base64,)[A-Za-z0-9+/]{100,}={0,2}` replaced by
`$1[...truncated...]`; since `[^;]+` cannot contain `;` and `=` is not in
the base64 class, both greedy quantifiers are deterministic (maximal
runs), so the scanner is an exact model of the JS semantics.  The second
pass is `([A-Za-z0-9+/]{500,}={0,2})` replaced by `[...truncated...]`. -/

/-- The class `[A-Za-z0-9+/]`. -/
def isB64 (c : Char) : Bool := c.isAlphanum || c = '+' || c = '/'

/-- The fixed replacement token. -/
def truncatedToken : List Char := "[...truncated...]".toList

/-- One attempted match of the data-URI regex at the head of `l`: on
success, the emitted replacement (`$1` = `data:<mime>;base64,` followed
by the token) and the remaining input after the match. -/
def matchDataUri (l : List Char) : Option (List Char × List Char) :=
  if l.take 5 = "data:".toList then
    let r1 := l.drop 5
    let mime := r1.takeWhile (fun c => c ≠ ';')
    let r2 := r1.drop mime.length
    if mime.length = 0 then none
    else if r2.take 8 = ";base64,".toList then
      let r3 := r2.drop 8
      let run := r3.takeWhile isB64
      let r4 := r3.drop run.length
      if run.length < 100 then none
      else
        let eqs := min 2 (r4.takeWhile (fun c => c = '=')).length
        some ("data:".toList ++ mime ++ ";base64,".toList ++ truncatedToken,
          r4.drop eqs)
    else none
  else none

theorem matchDataUri_rest_lt {l emit rest : List Char}
    (h : matchDataUri l = some (emit, rest)) : rest.length < l.length := by
  unfold matchDataUri at h
  by_cases h5 : l.take 5 = "data:".toList
  · rw [if_pos h5] at h
    have h5len : 5 ≤ l.length := by
      have hl := congrArg List.length h5
      rw [List.length_take, show ("data:".toList).length = 5 from rfl] at hl
      omega
    by_cases hm : ((l.drop 5).takeWhile (fun c => c ≠ ';')).length = 0
    · rw [if_pos hm] at h; cases h
    · rw [if_neg hm] at h
      by_cases h8 : ((l.drop 5).drop
          ((l.drop 5).takeWhile (fun c => c ≠ ';')).length).take 8 =
          ";base64,".toList
      · rw [if_pos h8] at h
        by_cases hr : ((((l.drop 5).drop
            ((l.drop 5).takeWhile (fun c => c ≠ ';')).length).drop
            8).takeWhile isB64).length < 100
        · rw [if_pos hr] at h; cases h
        · rw [if_neg hr] at h
          simp only [Option.some.injEq, Prod.mk.injEq] at h
          have hrest := h.2
          subst hrest
          simp only [List.length_drop]
          omega
      · rw [if_neg h8] at h; cases h
  · rw [if_neg h5] at h; cases h

/-- The first scrubbing pass, driven by a character-count fuel (the fuel
is irrelevant whenever it is at least the input length). -/
def pass1Go : Nat → List Char → List Char
  | 0, l => l
  | _ + 1, [] => []
  | fuel + 1, c :: cs =>
    match matchDataUri (c :: cs) with
    | some (emit, rest) => emit ++ pass1Go fuel rest
    | none => c :: pass1Go fuel cs

def pass1 (l : List Char) : List Char := pass1Go l.length l

theorem pass1Go_nil : ∀ f, pass1Go f [] = [] := by
  intro f
  cases f <;> rfl

theorem pass1Go_congr : ∀ (f : Nat) (g : Nat) (l : List Char),
    l.length ≤ f → l.length ≤ g → pass1Go f l = pass1Go g l := by
  intro f
  induction f with
  | zero =>
      intro g l hf _
      have : l = [] := List.eq_nil_of_length_eq_zero (by omega)
      subst this
      rw [pass1Go_nil, pass1Go_nil]
  | succ f ih =>
      intro g l hf hg
      match l with
      | [] => rw [pass1Go_nil, pass1Go_nil]
      | c :: cs =>
        match g, hg with
        | g + 1, hg =>
          simp only [pass1Go]
          cases hm : matchDataUri (c :: cs) with
          | none =>
              dsimp only
              simp only [List.length_cons] at hf hg
              rw [ih g cs (by omega) (by omega)]
          | some p =>
              obtain ⟨emit, rest⟩ := p
              dsimp only
              have hlt := matchDataUri_rest_lt hm
              simp only [List.length_cons] at hf hg hlt
              rw [ih g rest (by omega) (by omega)]

/-- The second scrubbing pass. -/
def pass2Go : Nat → List Char → List Char
  | 0, l => l
  | _ + 1, [] => []
  | fuel + 1, c :: cs =>
    let run := (c :: cs).takeWhile isB64
    if run.length = 0 then c :: pass2Go fuel cs
    else if run.length < 500 then
      run ++ pass2Go fuel ((c :: cs).drop run.length)
    else
      let r4 := (c :: cs).drop run.length
      let eqs := min 2 (r4.takeWhile (fun c => c = '=')).length
      truncatedToken ++ pass2Go fuel (r4.drop eqs)

def pass2 (l : List Char) : List Char := pass2Go l.length l

/-- `truncateHighEntropyStrings` on the character list. -/
def truncHESList (l : List Char) : List Char := pass2 (pass1 l)

/-- `truncateHighEntropyStrings` (`src/utils.ts`): first truncate data
URLs, then truncate other long high-entropy runs. -/
def truncateHighEntropyStrings (input : String) : String :=
  (truncHESList input.toList).asString

theorem takeWhile_append_eq {β : Type} (p : β → Bool) :
    ∀ (l1 l2 : List β), (∀ c ∈ l1, p c = true) →
      (∀ c, l2.head? = some c → p c = false) →
      (l1 ++ l2).takeWhile p = l1 := by
  intro l1
  induction l1 with
  | nil =>
      intro l2 _ h2
      cases l2 with
      | nil => rfl
      | cons c cs => simp [List.takeWhile_cons, h2 c rfl]
  | cons x xs ih =>
      intro l2 h1 h2
      simp only [List.cons_append, List.takeWhile_cons,
        h1 x (List.mem_cons_self x xs), if_true, List.cons.injEq, true_and]
      exact ih l2 (fun c hc => h1 c (List.mem_cons_of_mem x hc)) h2

/-- The scanner matches exactly at the head of a well-formed data URI
whose base64 run is `n` copies of `A` and whose continuation starts with
a non-base64, non-`=` character. -/
theorem matchDataUri_insert (mime post : List Char) (n : Nat)
    (hmime0 : mime ≠ []) (hmime : ∀ c ∈ mime, (c == ';') = false)
    (hn : 100 ≤ n)
    (hpost : ∀ c, post.head? = some c → isB64 c = false ∧ (c == '=') = false) :
    matchDataUri ("data:".toList ++ (mime ++ (";base64,".toList ++
        (List.replicate n 'A' ++ post)))) =
      some ("data:".toList ++ mime ++ ";base64,".toList ++ truncatedToken,
        post) := by
  have htw1 : ((mime ++ (";base64,".toList ++
      (List.replicate n 'A' ++ post))).takeWhile (fun c => c ≠ ';')) = mime := by
    refine takeWhile_append_eq _ mime _ ?_ ?_
    · intro c hc
      simpa using hmime c hc
    · intro c hc
      simp only [List.head?] at hc
      cases hc
      simp
  have htw2 : ((List.replicate n 'A' ++ post).takeWhile isB64) =
      List.replicate n 'A' := by
    refine takeWhile_append_eq _ _ _ ?_ ?_
    · intro c hc
      rw [List.eq_of_mem_replicate hc]
      decide
    · intro c hc
      exact (hpost c hc).1
  have htw3 : (post.takeWhile (fun c => c = '=')) = [] := by
    cases hpc : post with
    | nil => rfl
    | cons c cs =>
        have := (hpost c (by rw [hpc]; rfl)).2
        simp only [List.takeWhile_cons]
        simpa using this
  unfold matchDataUri
  rw [List.take_left' (show ("data:".toList).length = 5 from rfl),
    if_pos rfl,
    List.drop_left' (show ("data:".toList).length = 5 from rfl)]
  simp only [htw1]
  rw [if_neg (by simpa using hmime0), List.drop_left,
    List.take_left' (show (";base64,".toList).length = 8 from rfl),
    if_pos rfl,
    List.drop_left' (show (";base64,".toList).length = 8 from rfl)]
  simp only [htw2, List.length_replicate]
  rw [if_neg (by omega),
    List.drop_left' (show (List.replicate n 'A').length = n from
      List.length_replicate n 'A')]
  simp only [htw3, List.length_nil, Nat.min_zero, List.drop_zero]

/-- No data-URI match can begin at a character other than `d`. -/
theorem matchDataUri_cons_ne_d {c : Char} (cs : List Char) (hc : c ≠ 'd') :
    matchDataUri (c :: cs) = none := by
  unfold matchDataUri
  rw [if_neg]
  intro h
  rw [List.take_succ_cons] at h
  have : c = 'd' := by
    have := congrArg (fun l => l.head?) h
    simpa using this
  exact hc this

/-- Characters other than `d` are copied through the first pass. -/
theorem pass1_prefix (pre : List Char) (hpre : ∀ c ∈ pre, c ≠ 'd') :
    ∀ l : List Char, pass1 (pre ++ l) = pre ++ pass1 l := by
  induction pre with
  | nil => intro l; rfl
  | cons c pre' ih =>
      intro l
      have hc : c ≠ 'd' := hpre c (List.mem_cons_self c pre')
      have hm := matchDataUri_cons_ne_d (pre' ++ l) hc
      show pass1Go ((pre' ++ l).length + 1) (c :: (pre' ++ l)) = _
      simp only [pass1Go, hm]
      have := ih (fun a ha => hpre a (List.mem_cons_of_mem c ha)) l
      rw [show pass1Go (pre' ++ l).length (pre' ++ l) = pass1 (pre' ++ l)
        from rfl, this, List.cons_append]

/-- Unfolding one successful match step of the first pass. -/
theorem pass1_cons_match {c : Char} {cs emit rest : List Char}
    (h : matchDataUri (c :: cs) = some (emit, rest)) :
    pass1 (c :: cs) = emit ++ pass1 rest := by
  have hlt := matchDataUri_rest_lt h
  simp only [List.length_cons] at hlt
  show pass1Go ((c :: cs).length) (c :: cs) = _
  simp only [List.length_cons, pass1Go, h]
  rw [pass1Go_congr cs.length rest.length rest (by omega) le_rfl]
  rfl

/-- The first pass rewrites a well-formed data URI into the kept prefix
plus the token and goes on scanning the continuation. -/
theorem pass1_insert (mime post : List Char) (n : Nat)
    (hmime0 : mime ≠ []) (hmime : ∀ c ∈ mime, (c == ';') = false)
    (hn : 100 ≤ n)
    (hpost : ∀ c, post.head? = some c → isB64 c = false ∧ (c == '=') = false) :
    pass1 ("data:".toList ++ (mime ++ (";base64,".toList ++
        (List.replicate n 'A' ++ post)))) =
      ("data:".toList ++ mime ++ ";base64,".toList ++ truncatedToken) ++
        pass1 post :=
  pass1_cons_match (matchDataUri_insert mime post n hmime0 hmime hn hpost)

/-- A data URI with a 100-character base64 run, followed by ordinary
text that happens to contain a 500-character base64-class run. -/
def scrubCounterInput : String :=
  "data:x;base64," ++ (List.replicate 100 'A').asString ++ " " ++
    (List.replicate 500 'B').asString

/-- C8, counterexample.  The scrubber does NOT leave all surrounding
text byte-for-byte unchanged: its second pass also replaces standalone
base64-class runs of 500 or more characters, so the 500 `B`s after the
data URI are replaced as well, refuting the claimed output. -/
theorem scrub_surrounding_text_counterexample :
    truncateHighEntropyStrings scrubCounterInput =
      "data:x;base64,[...truncated...] [...truncated...]" ∧
    truncateHighEntropyStrings scrubCounterInput ≠
      "data:x;base64,[...truncated...] " ++
        (List.replicate 500 'B').asString := by
  refine ⟨by decide, by decide⟩

/-- C8, amended.  The scrubber replaces each base64 run of at least 100
characters following a `data:<mime>;base64,` prefix with the fixed
placeholder while keeping the prefix; the text before the URI is
unchanged provided it contains no `d` (hence no other `data:` marker),
and the text after the run is unchanged provided it starts with a
non-base64, non-`=` character, contains no data-URI match of its own
(`pass1 post = post`) and the second pass finds no standalone run of 500
or more base64-class characters anywhere in the replaced result
(`pass2` fixes it) — standalone long runs are otherwise also replaced,
as the counterexample shows.  The 300-character `data:image/png;base64`
scenario is the witness instance. -/
theorem scrub_data_uri_amended (pre mime post : List Char) (n : Nat)
    (hpre : ∀ c ∈ pre, c ≠ 'd')
    (hmime0 : mime ≠ []) (hmime : ∀ c ∈ mime, (c == ';') = false)
    (hn : 100 ≤ n)
    (hpost : ∀ c, post.head? = some c → isB64 c = false ∧ (c == '=') = false)
    (hpost1 : pass1 post = post)
    (hpass2 : pass2 (pre ++ (("data:".toList ++ mime ++ ";base64,".toList ++
        truncatedToken) ++ post)) =
      pre ++ (("data:".toList ++ mime ++ ";base64,".toList ++
        truncatedToken) ++ post)) :
    truncHESList (pre ++ ("data:".toList ++ (mime ++ (";base64,".toList ++
        (List.replicate n 'A' ++ post))))) =
      pre ++ (("data:".toList ++ mime ++ ";base64,".toList ++
        truncatedToken) ++ post) := by
  unfold truncHESList
  rw [ pass1_prefix pre hpre _,
    pass1_insert mime post n hmime0 hmime hn hpost, hpost1, hpass2]

/-- Witness for C8's amended theorem: the 300-character
`data:image/png;base64` payload inside an `img` tag has exactly the run
replaced and the surrounding markup kept. -/
theorem scrub_data_uri_amended_witness :
    truncHESList ("<img src=\"".toList ++ ("data:".toList ++
        ("image/png".toList ++ (";base64,".toList ++
          (List.replicate 300 'A' ++ "\"/>".toList))))) =
      "<img src=\"".toList ++ (("data:".toList ++ "image/png".toList ++
        ";base64,".toList ++ truncatedToken) ++ "\"/>".toList) := by
  exact scrub_data_uri_amended "<img src=\"".toList "image/png".toList
    "\"/>".toList 300 (by decide) (by decide) (by decide) (by decide)
    (by decide) (by decide) (by decide)

/-- Characters outside the base64 class are copied through the second
pass unchanged. -/
theorem pass2_prefix (pre : List Char) (hpre : ∀ c ∈ pre, isB64 c = false) :
    ∀ l : List Char, pass2 (pre ++ l) = pre ++ pass2 l := by
  induction pre with
  | nil => intro l; rfl
  | cons c pre' ih =>
      intro l
      have hc : isB64 c = false := hpre c (List.mem_cons_self c pre')
      show pass2Go ((pre' ++ l).length + 1) (c :: (pre' ++ l)) = _
      simp only [pass2Go, List.takeWhile_cons, hc, Bool.false_eq_true,
        if_false, List.length_nil, if_pos]
      have := ih (fun a ha => hpre a (List.mem_cons_of_mem c ha)) l
      rw [show pass2Go (pre' ++ l).length (pre' ++ l) = pass2 (pre' ++ l)
        from rfl, this, List.cons_append]

/-! ## Structural DOM summary
(`buildShallowDOMTree` / `prepareHtmlForLLM`, `src/utils.ts`)

The browser `DOMParser` is a platform API; the embedding therefore takes
the parsed document body as a parameter.  The recursive tree walk is
driven by an explicit fuel (an artifact of the embedding: any fuel at
least twice the number of DOM nodes is sufficient, and every statement
below is made at an explicitly sufficient fuel). -/

inductive DomNode where
  | text (content : String)
  | elem (tag : String) (attrs : List (String × String))
      (children : List DomNode)

/-- JS `s.trim()`. -/
def jsTrim (s : String) : String := (trimChars s.toList).asString

/-- `tagName.toLowerCase()` (kernel-evaluable form of `String.toLower`). -/
def jsToLower (s : String) : String := (s.toList.map Char.toLower).asString

/-- JS `s.slice(0, n)` (for the ASCII payloads handled here). -/
def strTake (s : String) (n : Nat) : String := (s.toList.take n).asString

/-- `"  ".repeat(depth)`. -/
def indentStr (depth : Nat) : String :=
  (List.replicate (2 * depth) ' ').asString

/-- The curated attribute allow-list (`importantAttrs`). -/
def importantAttrs : List String :=
  ["id", "class", "href", "src", "type", "name", "value", "placeholder",
   "aria-label", "aria-labelledby", "role", "data-testid", "data-id",
   "alt", "title", "for", "action", "method"]

/-- Elements skipped entirely (`skipTags`). -/
def skipTags : List String :=
  ["script", "style", "noscript", "svg", "path", "meta", "link"]

/-- Interactive elements shown in more detail (`interactiveTags`). -/
def interactiveTags : List String :=
  ["a", "button", "input", "select", "textarea", "form", "label", "img",
   "video", "audio", "iframe"]

/-- `el.getAttribute(name)` (`none` models `null`). -/
def getAttr (attrs : List (String × String)) (name : String) : Option String :=
  (attrs.find? (fun p => p.1 == name)).map (fun p => p.2)

/-- Truncation of long text for display (`> 100` chars). -/
def displayText (t : String) : String :=
  if 100 < t.length then strTake t 100 ++ "..." else t

def joinSep (sep : String) : List String → String
  | [] => ""
  | [x] => x
  | x :: xs => x ++ sep ++ joinSep sep xs

/-- The attribute string: allow-listed attributes with a truthy value,
values over 80 characters truncated. -/
def buildAttrs (attrs : List (String × String)) : String :=
  let parts := importantAttrs.filterMap (fun an =>
    match getAttr attrs an with
    | some v =>
      if v ≠ "" then
        some (an ++ "=\"" ++
          (if 80 < v.length then strTake v 80 ++ "..." else v) ++ "\"")
      else none
    | none => none)
  if parts.length ≠ 0 then " " ++ joinSep " " parts else ""

/-- The builder's mutable state: pushed output lines and `charCount`. -/
structure BuildState where
  output : List String
  charCount : Nat
deriving Repr, DecidableEq

def BuildState.push (st : BuildState) (line : String) : BuildState :=
  { output := st.output ++ [line], charCount := st.charCount + line.length }

/-- One step of `processNode` from `buildShallowDOMTree`; `rec` is the
recursive descent into a child list (tied by `processF` below).  In the
inline single-text-child branch, `el.textContent` of an element whose
only child is a text node is that node's text. -/
def processNodeStep (maxLength : Nat)
    (rec : List DomNode → Nat → BuildState → BuildState × Bool)
    (node : DomNode) (depth : Nat) (st : BuildState) : BuildState × Bool :=
  if maxLength ≤ st.charCount then (st, false)
  else
    match node with
    | .text s =>
      let text := jsTrim s
      if text ≠ "" then
        let line := indentStr depth ++ "\"" ++ displayText text ++ "\"\n"
        if maxLength < st.charCount + line.length then (st, false)
        else (st.push line, true)
      else (st, true)
    | .elem tag attrs children =>
      let tagName := jsToLower tag
      if skipTags.contains tagName then (st, true)
      else
        let attrStr := buildAttrs attrs
        let hasChildren := children.length ≠ 0
        let isInteractive := interactiveTags.contains tagName
        let inlineText : Option String :=
          if ¬ isInteractive then
            match children with
            | [DomNode.text t0] =>
              let text := jsTrim t0
              if text ≠ "" then some text else none
            | _ => none
          else none
        match inlineText with
        | some text =>
          let line := indentStr depth ++ "<" ++ tagName ++ attrStr ++
            ">" ++ displayText text ++ "</" ++ tagName ++ ">\n"
          if maxLength < st.charCount + line.length then (st, false)
          else (st.push line, true)
        | none =>
          let openTag :=
            if hasChildren then
              indentStr depth ++ "<" ++ tagName ++ attrStr ++ ">\n"
            else indentStr depth ++ "<" ++ tagName ++ attrStr ++ " />\n"
          if maxLength < st.charCount + openTag.length then (st, false)
          else
            let st1 := st.push openTag
            if hasChildren then
              let maxDepth := if isInteractive then 10 else 6
              let step : BuildState × Bool :=
                if depth < maxDepth then
                  rec children (depth + 1) st1
                else
                  let ellipsis := indentStr depth ++ "  " ++ "[..." ++
                    toString children.length ++ " children]\n"
                  (if st1.charCount + ellipsis.length ≤ maxLength then
                    st1.push ellipsis else st1, true)
              if step.2 = false then (step.1, false)
              else
                let closeTag := indentStr depth ++ "</" ++ tagName ++ ">\n"
                if maxLength < step.1.charCount + closeTag.length then
                  (step.1, false)
                else (step.1.push closeTag, true)
            else (st1, true)

/-- `processNode` (`.inl`) together with its `for (const child of ...)`
loop (`.inr`, early `return false` on a `false` child result); the
returned flag is the JS return value. -/
def processF (maxLength : Nat) :
    Nat → Sum DomNode (List DomNode) → Nat → BuildState →
      BuildState × Bool
  | 0, _, _, st => (st, false)
  | fuel + 1, .inl node, depth, st =>
    processNodeStep maxLength
      (fun cs d s => processF maxLength fuel (.inr cs) d s) node depth st
  | _ + 1, .inr [], _, st => (st, true)
  | fuel + 1, .inr (c :: cs), depth, st =>
    match processF maxLength fuel (.inl c) depth st with
    | (st1, false) => (st1, false)
    | (st1, true) => processF maxLength fuel (.inr cs) depth st1

/-- `buildShallowDOMTree` over the parsed body: `body?` is `doc.body`'s
child list (`none` when the document has no body); `fuel` as above. -/
def buildShallowDOMTree (body? : Option (List DomNode))
    (maxLength : Nat) (fuel : Nat) : String :=
  match body? with
  | none => ""
  | some children =>
    let st0 : BuildState := { output := ["<body>\n"], charCount := 7 }
    let st1 := (processF maxLength fuel (.inr children) 1 st0).1
    let out :=
      if st1.charCount < maxLength then st1.output ++ ["</body>\n"]
      else st1.output
    joinSep "" out

def MAX_HTML_CHARS : Nat := 80000

/-- `prepareHtmlForLLM` (`src/utils.ts`): scrub, and if the scrubbed
markup still exceeds the budget, fall back to the structural summary of
the (separately parsed) body. -/
def prepareHtmlForLLM (html : String) (parsedBody : Option (List DomNode))
    (fuel : Nat) : String × Bool :=
  let cleaned := truncateHighEntropyStrings html
  if cleaned.length ≤ MAX_HTML_CHARS then (cleaned, false)
  else (buildShallowDOMTree parsedBody MAX_HTML_CHARS fuel, true)

/-! ### A concrete page on which the summary overruns the budget

A body with 762 plain `<p>` paragraphs: 761 of 95 `x`s (each printed as
one 105-character inline line) and a final one of 75 `y`s (an
85-character line).  Processing completes with `charCount = 79997`,
which is below the budget, so the final `</body>\n` (8 characters) is
appended without a budget check and the summary is 80005 characters —
above `MAX_HTML_CHARS`. -/

def text95 : String := (List.replicate 95 'x').asString

def text75 : String := (List.replicate 75 'y').asString

def pNode (t : String) : DomNode := .elem "p" [] [.text t]

def line95 : String := "  <p>" ++ text95 ++ "</p>\n"

def line85 : String := "  <p>" ++ text75 ++ "</p>\n"

def overflowChildren : List DomNode :=
  List.replicate 761 (pNode text95) ++ [pNode text75]

/-- An 85000-character page source (no data URIs, no base64 runs), so
its scrubbed form is itself and exceeds the budget. -/
def overflowHtml : String := (List.replicate 85000 '<').asString

theorem joinSep_length (out : List String) :
    (joinSep "" out).length = (out.map String.length).sum := by
  induction out with
  | nil => rfl
  | cons x xs ih =>
      cases xs with
      | nil => simp [joinSep]
      | cons y ys =>
          simp only [joinSep, String.length_append, List.map_cons,
            List.sum_cons, show ("" : String).length = 0 from rfl] at ih ⊢
          omega

theorem joinSep_cons (x : String) (xs : List String) (hxs : xs ≠ []) :
    joinSep "" (x :: xs) = x ++ "" ++ joinSep "" xs := by
  cases xs with
  | nil => exact absurd rfl hxs
  | cons y ys => rfl

/-- Evaluating `processNode` on one inline `<p>` paragraph with plain
text `t` when the printed line fits the budget (for any tied-back
recursive descent `rec`, which this branch never invokes). -/
theorem processNodeStep_inline_p (t line : String) (st : BuildState)
    (rec : List DomNode → Nat → BuildState → BuildState × Bool)
    (htrim : jsTrim t = t)
    (ht0 : t ≠ "")
    (hdisp : displayText t = t)
    (hline : indentStr 1 ++ "<" ++ jsToLower "p" ++ buildAttrs [] ++ ">" ++
      t ++ "</" ++ jsToLower "p" ++ ">\n" = line)
    (h : st.charCount + line.length ≤ 80000)
    (hl1 : 1 ≤ line.length) :
    processNodeStep 80000 rec (pNode t) 1 st = (st.push line, true) := by
  have e2 : skipTags.contains (jsToLower "p") = false := by decide
  have e3 : interactiveTags.contains (jsToLower "p") = false := by decide
  have hc : ¬ (80000 < st.charCount + line.length) := by omega
  unfold pNode
  unfold processNodeStep
  rw [if_neg (show ¬ 80000 ≤ st.charCount by omega)]
  dsimp only
  simp only [e2, e3, htrim, hdisp, Bool.false_eq_true, if_false,
    not_false_iff, ite_true, ite_false]
  split
  · rename_i bc heq
    rw [if_pos ht0] at heq
    cases heq
    rw [hdisp, hline, if_neg hc]
  · rename_i heq
    rw [if_pos ht0] at heq
    simp at heq

/-- Running the child loop over `k` 95-`x` paragraphs and the final
75-`y` paragraph adds `105 * k + 85` counted output characters. -/
theorem processF_overflow (k : Nat) :
    ∀ (fuel : Nat) (st : BuildState), 2 * k + 3 ≤ fuel →
      st.charCount + (105 * k + 85) ≤ 80000 →
      ∃ tail, processF 80000 fuel
          (.inr (List.replicate k (pNode text95) ++ [pNode text75])) 1 st =
        ({ output := st.output ++ tail
           charCount := st.charCount + (105 * k + 85) }, true) ∧
        (tail.map String.length).sum = 105 * k + 85 := by
  have e95 : line95.length = 105 := by decide
  have e85 : line85.length = 85 := by decide
  induction k with
  | zero =>
      intro fuel st hf h
      match fuel, hf with
      | f + 1, hf =>
        match f, hf with
        | f' + 1, hf =>
          refine ⟨[line85], ?_, by simp [e85]⟩
          simp only [List.replicate, List.nil_append]
          simp only [processF]
          rw [processNodeStep_inline_p text75 line85 st _ (by decide)
            (by decide) (by decide) (by decide) (by omega) (by omega)]
          simp only [BuildState.push, e85, Prod.mk.injEq,
            BuildState.mk.injEq, true_and, and_true]
  | succ k ih =>
      intro fuel st hf h
      match fuel, hf with
      | f + 1, hf =>
        match f, hf with
        | f' + 1, hf =>
          obtain ⟨tail, htail, hsum⟩ := ih (f' + 1) (st.push line95)
            (by omega) (by simp only [BuildState.push, e95]; omega)
          refine ⟨line95 :: tail, ?_, ?_⟩
          · simp only [List.replicate, List.cons_append]
            simp only [processF]
            rw [processNodeStep_inline_p text95 line95 st _ (by decide)
              (by decide) (by decide) (by decide) (by omega) (by omega)]
            simp only []
            rw [htail]
            simp only [BuildState.push, e95, Prod.mk.injEq,
              BuildState.mk.injEq, List.append_assoc,
              List.singleton_append, and_true, true_and]
            omega
          · simp only [List.map_cons, List.sum_cons, hsum, e95]
            omega

/-- The scrubbed overflow page is the page itself (no data URIs, no
base64 runs). -/
theorem truncHES_overflowHtml :
    truncateHighEntropyStrings overflowHtml = overflowHtml := by
  have hpre1 : ∀ c ∈ List.replicate 85000 '<', c ≠ 'd' := by
    intro c hc
    rw [List.eq_of_mem_replicate hc]
    decide
  have hpre2 : ∀ c ∈ List.replicate 85000 '<', isB64 c = false := by
    intro c hc
    rw [List.eq_of_mem_replicate hc]
    decide
  show (truncHESList ((List.replicate 85000 '<').asString).toList).asString = _
  have h0 : ((List.replicate 85000 '<').asString).toList =
      List.replicate 85000 '<' := rfl
  rw [h0]
  unfold truncHESList
  have h1 : pass1 (List.replicate 85000 '<') = List.replicate 85000 '<' := by
    have hp := pass1_prefix (List.replicate 85000 '<') hpre1 []
    rw [List.append_nil, show pass1 [] = [] from rfl, List.append_nil] at hp
    exact hp
  have h2 : pass2 (List.replicate 85000 '<') = List.replicate 85000 '<' := by
    have hp := pass2_prefix (List.replicate 85000 '<') hpre2 []
    rw [List.append_nil, show pass2 [] = [] from rfl, List.append_nil] at hp
    exact hp
  rw [h1, h2]
  exact rfl

theorem toList_append (s t : String) : (s ++ t).toList = s.toList ++ t.toList := by
  cases s
  cases t
  rfl

/-- C9 (code bug demonstration).  On a page whose scrubbed source has
85000 characters, `prepareHtmlForLLM` falls back to the structural
summary; on the 762-paragraph body above, the summary does begin with
the root `<body>` tag, but its total length is 80005 characters —
`buildShallowDOMTree` pushes the final `</body>\n` without a budget
check, so the summary EXCEEDS the configured `MAX_HTML_CHARS = 80000`
budget, contradicting the claimed bound. -/
theorem structural_summary_overruns_budget :
    prepareHtmlForLLM overflowHtml (some overflowChildren) 2000 =
      (buildShallowDOMTree (some overflowChildren) MAX_HTML_CHARS 2000,
        true) ∧
    (buildShallowDOMTree (some overflowChildren) MAX_HTML_CHARS
        2000).toList.take 7 = "<body>\n".toList ∧
    (buildShallowDOMTree (some overflowChildren) MAX_HTML_CHARS
        2000).length = 80005 ∧
    MAX_HTML_CHARS <
      (buildShallowDOMTree (some overflowChildren) MAX_HTML_CHARS
        2000).length := by
  have hlen : (truncateHighEntropyStrings overflowHtml).length = 85000 := by
    have h1 : overflowHtml.length = 85000 := by
      show (List.replicate 85000 '<').asString.length = 85000
      rw [List.length_asString, List.length_replicate]
    calc (truncateHighEntropyStrings overflowHtml).length
        = overflowHtml.length := by rw [truncHES_overflowHtml]
      _ = 85000 := h1
  obtain ⟨tail, hrun, hsum⟩ := processF_overflow 761 2000
    { output := ["<body>\n"], charCount := 7 } (by norm_num) (by norm_num)
  have hbuild : buildShallowDOMTree (some overflowChildren) MAX_HTML_CHARS
      2000 = joinSep "" (("<body>\n" :: tail) ++ ["</body>\n"]) := by
    unfold buildShallowDOMTree overflowChildren MAX_HTML_CHARS
    simp only []
    rw [hrun]
    dsimp only
    rw [if_pos (by omega)]
    simp
  have e7 : ("<body>\n" : String).length = 7 := rfl
  have e8 : ("</body>\n" : String).length = 8 := rfl
  refine ⟨?_, ?_, ?_, ?_⟩
  · simp only [prepareHtmlForLLM]
    rw [hlen, if_neg (by norm_num [MAX_HTML_CHARS])]
  · rw [hbuild, List.cons_append, joinSep_cons _ _ (by simp)]
    have h3 : ("<body>\n" ++ "" ++ joinSep "" (tail ++ ["</body>\n"])).toList =
        "<body>\n".toList ++ (joinSep "" (tail ++ ["</body>\n"])).toList := by
      rw [toList_append]
      rfl
    rw [h3, List.take_left' (show ("<body>\n".toList).length = 7 from rfl)]
  · rw [hbuild, joinSep_length]
    simp only [List.cons_append, List.map_cons, List.map_append,
      List.sum_cons, List.sum_append, List.map_nil, List.sum_nil,
      hsum, e7, e8]
    omega
  · rw [hbuild, joinSep_length]
    simp only [List.cons_append, List.map_cons, List.map_append,
      List.sum_cons, List.sum_append, List.map_nil, List.sum_nil,
      hsum, e7, e8, MAX_HTML_CHARS]
    omega

end Improv
